import Mathlib

/-!
Verification of the Items CRUD backend: a shallow embedding of the
service pipeline (casing conversion, field validation, geo enrichment,
persistence and event emission) together with proofs about it.

Modelling conventions:
* Python strings are Lean `String`/`List Char`; the character predicates
  (`isUpper`, `toLower`, ...) are the ASCII fragment, which is what every
  key and message in this code base uses.
* timestamps are seconds as `Int`; `datetime.utcnow()` is an explicit
  `now` parameter; `timedelta(weeks=1)` is `604800` seconds.
* floats (coordinates) are `Rat`.
* fallible steps return `Option`; a raised exception is `none` or an
  explicit outcome parameter.
-/

namespace Items

/-! ## Python string primitives (ASCII model) -/

/-- One step of the comprehension in `convert_keys_to_snake_case`:
`'_' + c.lower() if c.isupper() else c`. -/
def snakeStep (c : Char) : List Char :=
  if c.isUpper then ['_', c.toLower] else [c]

/-- `''.join(['_' + c.lower() if c.isupper() else c for c in key]).lstrip('_')`. -/
def snakeChars (cs : List Char) : List Char :=
  List.dropWhile (fun c => c == '_') (cs.flatMap snakeStep)

/-- Python `key.split('_')`. -/
def splitUnd : List Char → List (List Char)
  | [] => [[]]
  | c :: cs =>
    if c == '_' then [] :: splitUnd cs
    else
      match splitUnd cs with
      | [] => [[c]]
      | w :: ws => (c :: w) :: ws

/-- Python `str.title()` (ASCII model): the first letter of each
alphabetic run is uppercased, the rest lowercased, other characters
unchanged.  The boolean tracks whether the previous character was
alphabetic. -/
def pyTitleGo : Bool → List Char → List Char
  | _, [] => []
  | prev, c :: cs =>
    (if c.isAlpha then (if prev then c.toLower else c.toUpper) else c)
      :: pyTitleGo c.isAlpha cs

/-- Python `str.title()` on a whole string. -/
def pyTitle (cs : List Char) : List Char := pyTitleGo false cs

/-- `components = key.split('_');
    components[0] + ''.join(x.title() for x in components[1:])`. -/
def camelChars (cs : List Char) : List Char :=
  match splitUnd cs with
  | [] => []
  | w :: ws => w ++ ws.flatMap pyTitle

/-- The snake-case key transform of `convert_keys_to_snake_case`. -/
def snakeKey (s : String) : String := ⟨snakeChars s.data⟩

/-- The camel-case key transform of `convert_keys_to_camel_case`. -/
def camelKey (s : String) : String := ⟨camelChars s.data⟩

/-! ## JSON-like Python values and the key-casing converters

`convert_keys_to_snake_case` / `convert_keys_to_camel_case` walk a dict:
nested dict values recurse; a list value is mapped over *only when it is
non-empty and its first element is a dict* (then the function is applied
to every element); any other value is copied untouched.  Calling the
function on a falsy argument returns `{}`; calling it on a truthy
non-dict raises (`.items()` is missing) — modelled as `none`. -/

inductive Value where
  | vstr (s : String)
  | vint (n : Int)
  | vbool (b : Bool)
  | vnone
  | vlist (xs : List Value)
  | vdict (entries : List (String × Value))
deriving Repr

/-- Python truthiness test `not data` on a JSON-like value. -/
def Value.falsy : Value → Bool
  | .vstr s => s.isEmpty
  | .vint n => n == 0
  | .vbool b => !b
  | .vnone => true
  | .vlist xs => xs.isEmpty
  | .vdict es => es.isEmpty

/-- `k in result` for the string-keyed result dict being built. -/
def hasKeyStr (d : List (String × Value)) (k : String) : Bool :=
  d.any (fun kv => kv.1 == k)

/-- Python dict assignment `result[k] = v`: overwrite in place (keeping
the original insertion position), else append. -/
def dictSetStr (d : List (String × Value)) (k : String) (v : Value) :
    List (String × Value) :=
  match d with
  | [] => [(k, v)]
  | (k', v') :: rest =>
    if k' = k then (k, v) :: rest else (k', v') :: dictSetStr rest k v

mutual

/-- The `for key, value in data.items()` loop: `result` starts as `{}`
and each entry executes `result[f key] = converted value` — a dict
assignment, so when two input keys rewrite to the same key the later
entry overwrites the earlier one. -/
def convertEntries (f : String → String) (result : List (String × Value))
    (es : List (String × Value)) : Option (List (String × Value)) :=
  match es with
  | [] => some result
  | (k, v) :: rest => do
    let v' ← convertVal f v
    convertEntries f (dictSetStr result (f k) v') rest
termination_by sizeOf es

/-- How one dict value is converted: nested dicts recurse (for a dict
argument the whole function reduces to converting its entries, since the
falsy case and the empty-entries case both yield `{}`); a list whose
first element is a dict has the function mapped over all its elements;
everything else is copied unchanged. -/
def convertVal (f : String → String) (v : Value) : Option Value :=
  match v with
  | .vdict es => (convertEntries f [] es).map .vdict
  | .vlist xs =>
    match xs with
    | .vdict es :: rest => (convertList f (.vdict es :: rest)).map .vlist
    | _ => some (.vlist xs)
  | .vstr s => some (.vstr s)
  | .vint n => some (.vint n)
  | .vbool b => some (.vbool b)
  | .vnone => some .vnone
termination_by sizeOf v

/-- `[convert_keys_to_*_case(item) for item in value]`. -/
def convertList (f : String → String) (xs : List Value) : Option (List Value) :=
  match xs with
  | [] => some []
  | x :: rest => do
    let y ← convertTop f x
    let ys ← convertList f rest
    pure (y :: ys)
termination_by sizeOf xs

/-- The converter applied to an arbitrary Python object (the list
comprehension applies it to non-dict elements too): a falsy argument
yields `{}`, a truthy non-dict raises. -/
def convertTop (f : String → String) (v : Value) : Option Value :=
  if v.falsy then some (.vdict [])
  else
    match v with
    | .vdict es => (convertEntries f [] es).map .vdict
    | _ => none
termination_by sizeOf v

end

/-- `convert_keys_to_snake_case(data)` on a dict given as its entries. -/
def convert_keys_to_snake_case (v : Value) : Option Value := convertTop snakeKey v

/-- `convert_keys_to_camel_case(data)` on a dict given as its entries. -/
def convert_keys_to_camel_case (v : Value) : Option Value := convertTop camelKey v

/-- The entry loop specialised to the collision-free case: one output
entry per input entry, in order.  `convertEntries` coincides with it
whenever the rewritten keys are pairwise distinct and fresh for the
accumulator (`convertEntries_eq_ND`); when rewritten keys collide the
real loop's dict assignment overwrites instead. -/
def convertEntriesND (f : String → String) (es : List (String × Value)) :
    Option (List (String × Value)) :=
  match es with
  | [] => some []
  | (k, v) :: rest => do
    let v' ← convertVal f v
    let rest' ← convertEntriesND f rest
    pure ((f k, v') :: rest')

theorem hasKeyStr_false_iff (d : List (String × Value)) (k : String) :
    hasKeyStr d k = false ↔ ∀ kv ∈ d, kv.1 ≠ k := by
  simp [hasKeyStr]

theorem dictSetStr_fresh (d : List (String × Value)) (k : String) (v : Value)
    (h : hasKeyStr d k = false) : dictSetStr d k v = d ++ [(k, v)] := by
  induction d with
  | nil => rfl
  | cons kv rest ih =>
    obtain ⟨k', v'⟩ := kv
    rw [hasKeyStr_false_iff] at h
    have hne : k' ≠ k := h (k', v') (by simp)
    have hrest : hasKeyStr rest k = false := by
      rw [hasKeyStr_false_iff]
      intro kv hkv
      exact h kv (List.mem_cons_of_mem _ hkv)
    rw [dictSetStr, if_neg hne, ih hrest]
    rfl

theorem convertEntries_eq_ND (f : String → String) (es : List (String × Value)) :
    ∀ acc, (∀ kv ∈ es, hasKeyStr acc (f kv.1) = false) →
    (es.map (fun kv => f kv.1)).Nodup →
    convertEntries f acc es = (convertEntriesND f es).map (acc ++ ·) := by
  induction es with
  | nil =>
    intro acc _ _
    simp [convertEntries, convertEntriesND]
  | cons kv rest ih =>
    intro acc hfresh hnd
    obtain ⟨k, v⟩ := kv
    rw [List.map_cons, List.nodup_cons] at hnd
    obtain ⟨hknotin, hnd'⟩ := hnd
    rw [convertEntries, convertEntriesND]
    cases hv : convertVal f v with
    | none => simp [hv]
    | some v' =>
      simp only [hv, Option.bind_eq_bind, Option.some_bind]
      have hset : dictSetStr acc (f k) v' = acc ++ [(f k, v')] :=
        dictSetStr_fresh acc (f k) v' (hfresh (k, v) (by simp))
      have hfresh' : ∀ kv ∈ rest, hasKeyStr (acc ++ [(f k, v')]) (f kv.1) = false := by
        intro kv hkv
        rw [hasKeyStr_false_iff]
        intro kv' hkv'
        rcases List.mem_append.mp hkv' with hmem | hmem
        · exact (hasKeyStr_false_iff _ _).mp
            (hfresh kv (List.mem_cons_of_mem _ hkv)) kv' hmem
        · simp only [List.mem_singleton] at hmem
          subst hmem
          intro heq
          apply hknotin
          show f (k, v).1 ∈ List.map (fun kv => f kv.1) rest
          have heq2 : f (k, v).1 = f kv.1 := heq
          rw [heq2]
          exact List.mem_map_of_mem _ hkv
      rw [hset, ih (acc ++ [(f k, v')]) hfresh' hnd']
      cases hr : convertEntriesND f rest with
      | none => simp
      | some rest' => simp

theorem convertEntries_nil_eq_ND (f : String → String)
    (es : List (String × Value))
    (hnd : (es.map (fun kv => f kv.1)).Nodup) :
    convertEntries f [] es = convertEntriesND f es := by
  rw [convertEntries_eq_ND f es [] (fun kv _ => rfl) hnd]
  cases convertEntriesND f es <;> simp

theorem convertEntriesND_forall2 (f : String → String)
    (es es' : List (String × Value)) (h : convertEntriesND f es = some es') :
    List.Forall₂ (fun kv kv' => kv'.1 = f kv.1 ∧ convertVal f kv.2 = some kv'.2)
      es es' := by
  induction es generalizing es' with
  | nil =>
    rw [convertEntriesND] at h
    injection h with h
    subst h
    exact List.Forall₂.nil
  | cons kv rest ih =>
    obtain ⟨k, v⟩ := kv
    rw [convertEntriesND] at h
    cases hv : convertVal f v with
    | none => rw [hv] at h; simp at h
    | some v2 =>
      cases hr : convertEntriesND f rest with
      | none => rw [hv, hr] at h; simp at h
      | some rest2 =>
        rw [hv, hr] at h
        simp only [Option.bind_eq_bind, Option.some_bind] at h
        injection h with h
        subst h
        exact List.Forall₂.cons ⟨rfl, hv⟩ (ih rest2 hr)

theorem convertEntriesND_keys (f : String → String)
    (es : List (String × Value)) :
    ∀ es', convertEntriesND f es = some es' →
      es'.map Prod.fst = es.map (fun kv => f kv.1) := by
  induction es with
  | nil =>
    intro es' h
    rw [convertEntriesND] at h
    injection h with h
    subst h
    rfl
  | cons kv rest ih =>
    intro es' h
    obtain ⟨k, v⟩ := kv
    rw [convertEntriesND] at h
    cases hv : convertVal f v with
    | none => rw [hv] at h; simp at h
    | some v2 =>
      cases hr : convertEntriesND f rest with
      | none => rw [hv, hr] at h; simp at h
      | some rest2 =>
        rw [hv, hr] at h
        simp only [Option.bind_eq_bind, Option.some_bind] at h
        injection h with h
        subst h
        simp [ih rest2 hr]

theorem convertEntriesND_cons_shape (f : String → String) (k : String)
    (v : Value) (rest : List (String × Value)) (es2 : List (String × Value))
    (h : convertEntriesND f ((k, v) :: rest) = some es2) :
    ∃ v2 rest2, es2 = (f k, v2) :: rest2 := by
  rw [convertEntriesND] at h
  cases hv : convertVal f v with
  | none => rw [hv] at h; simp at h
  | some v2 =>
    cases hr : convertEntriesND f rest with
    | none => rw [hv, hr] at h; simp at h
    | some rest2 =>
      rw [hv, hr] at h
      simp only [Option.bind_eq_bind, Option.some_bind] at h
      injection h with h
      exact ⟨v2, rest2, h.symm⟩

/-! ## Item validation (`src/utils/validators.py`)

The error dictionary of `validate_item_data` is an association list keyed
by `Field`; `Field.usersElem i` stands for the source's string key
`users[i]` (the f-string is injective in `i`, so the inductive key is a
faithful rendering of the distinct per-element keys). -/

inductive Field where
  | name
  | postcode
  | users
  | usersElem (i : Nat)
  | start_date
  | title
  | id
  | server
  | underscore
deriving DecidableEq, Repr

/-- Python dict assignment `errors[k] = v`: overwrite in place, else
append (insertion order preserved, as in Python 3.7+ dicts). -/
def dictSet (d : List (Field × String)) (k : Field) (v : String) :
    List (Field × String) :=
  match d with
  | [] => [(k, v)]
  | (k', v') :: rest => if k' = k then (k, v) :: rest else (k', v') :: dictSet rest k v

/-- `k in errors`. -/
def dictHasKey (d : List (Field × String)) (k : Field) : Bool :=
  d.any (fun kv => kv.1 = k)

/-- `errors[k]` as an option. -/
def dictLookup (d : List (Field × String)) (k : Field) : Option String :=
  match d with
  | [] => none
  | (k', v') :: rest => if k' = k then some v' else dictLookup rest k

/-- `^\d{5}(-\d{4})?$` applied to a character list (without the
trailing-newline allowance of `$`, handled by the caller). -/
def zipMatch (cs : List Char) : Bool :=
  match cs with
  | [a, b, c, d, e] => a.isDigit && b.isDigit && c.isDigit && d.isDigit && e.isDigit
  | [a, b, c, d, e, f, g, h, i, j] =>
    a.isDigit && b.isDigit && c.isDigit && d.isDigit && e.isDigit &&
      f == '-' && g.isDigit && h.isDigit && i.isDigit && j.isDigit
  | _ => false

/-- `validate_postcode`: falsy (empty) strings are rejected, then
`re.match(US_POSTCODE_REGEX, postcode)`.  Python's `$` also matches just
before one trailing newline, which the model keeps. -/
def validate_postcode (p : String) : Bool :=
  if p.isEmpty then false
  else
    match p.data.getLast? with
    | some c => if c = '\n' then zipMatch p.data.dropLast else zipMatch p.data
    | none => false

/-- `validate_start_date(start_date)`: `start_date >= utcnow() + timedelta(weeks=1)`,
with `utcnow()` passed in as `now` (seconds). -/
def validate_start_date (now sd : Int) : Bool := sd ≥ now + 604800

/-- `validate_name_in_users(name, users)`: `name in users`. -/
def validate_name_in_users (name : String) (users : List String) : Bool :=
  users.contains name

/-- The `users` value of a raw payload: the `isinstance(data["users"], list)`
test can fail, so a non-list marker is kept alongside the list case. -/
inductive UsersVal where
  | notList
  | items (l : List String)
deriving DecidableEq, Repr

/-- A raw item mapping after casing conversion: `none` marks an absent
key.  `title` may be present with value `None` (`Option (Option String)`). -/
structure RawItem where
  name : Option String := none
  postcode : Option String := none
  users : Option UsersVal := none
  start_date : Option Int := none
  title : Option (Option String) := none
deriving DecidableEq, Repr

/-- The `for i, user in enumerate(data["users"])` loop of
`validate_item_data`, carried out from index `i`. -/
def usersLoop (errs : List (Field × String)) (l : List String) (i : Nat) :
    List (Field × String) :=
  match l with
  | [] => errs
  | u :: rest =>
    usersLoop
      (if u.length > 50 then
        dictSet errs (.usersElem i) ("User name " ++ u ++ " exceeds 50 characters")
      else errs)
      rest (i + 1)

/-- First check of `validate_item_data`: `name` presence and length. -/
def checkName (d : RawItem) (e : List (Field × String)) :
    List (Field × String) :=
  match d.name with
  | none => dictSet e .name "Name is required"
  | some n =>
    if n.length > 50 then dictSet e .name "Name must be less than 50 characters"
    else e

/-- Second check: `postcode` presence and format. -/
def checkPostcode (d : RawItem) (e : List (Field × String)) :
    List (Field × String) :=
  match d.postcode with
  | none => dictSet e .postcode "Postcode is required"
  | some p =>
    if !validate_postcode p then dictSet e .postcode "Invalid US postcode format"
    else e

/-- Third check: `users` presence, list-ness, and per-element length. -/
def checkUsers (d : RawItem) (e : List (Field × String)) :
    List (Field × String) :=
  match d.users with
  | none => dictSet e .users "Users list is required"
  | some .notList => dictSet e .users "Users must be a list"
  | some (.items l) => usersLoop e l 0

/-- Fourth check: `start_date` presence and lower bound. -/
def checkStartDate (now : Int) (d : RawItem) (e : List (Field × String)) :
    List (Field × String) :=
  match d.start_date with
  | none => dictSet e .start_date "Start date is required"
  | some sd =>
    if !validate_start_date now sd then
      dictSet e .start_date "Start date must be at least 1 week after the item creation date"
    else e

/-- Fifth check: `name` must be in the `users` list when both present
(and `users` is a list). -/
def checkNameInUsers (d : RawItem) (e : List (Field × String)) :
    List (Field × String) :=
  match d.name, d.users with
  | some n, some (.items l) =>
    if !validate_name_in_users n l then
      dictSet e .name "Name must be included in the users list"
    else e
  | _, _ => e

/-- Sixth check: optional `title` length. -/
def checkTitle (d : RawItem) (e : List (Field × String)) :
    List (Field × String) :=
  match d.title with
  | some (some t) =>
    if t.length > 100 then dictSet e .title "Title must be less than 100 characters"
    else e
  | _ => e

/-- `validate_item_data(data)`: the six checks run in source order on the
accumulating error dict; the result is `(len(errors) == 0, errors)`. -/
def validate_item_data (now : Int) (d : RawItem) :
    Bool × List (Field × String) :=
  let e := checkTitle d (checkNameInUsers d (checkStartDate now d
    (checkUsers d (checkPostcode d (checkName d [])))))
  (e.isEmpty, e)

/-! ## Geo resolver (`src/utils/geo.py`, reference point from `src/config.py`) -/

/-- `Settings.NY_LATITUDE`. -/
def NY_LATITUDE : Rat := 40.7128

/-- `Settings.NY_LONGITUDE`. -/
def NY_LONGITUDE : Rat := -74.0060

/-- The `Direction` enum of `src/db/models/items.py`. -/
inductive Direction where
  | NORTHEAST
  | NORTHWEST
  | SOUTHEAST
  | SOUTHWEST
deriving DecidableEq, Repr

/-- `Direction.value`, the string each enum member carries. -/
def Direction.val : Direction → String
  | .NORTHEAST => "NE"
  | .NORTHWEST => "NW"
  | .SOUTHEAST => "SE"
  | .SOUTHWEST => "SW"

/-- The `direction_map` dict of `calculate_direction`; a missing key
raises `KeyError`, hence the option. -/
def directionMap (d : String) : Option Direction :=
  if d = "NE" then some .NORTHEAST
  else if d = "NW" then some .NORTHWEST
  else if d = "SE" then some .SOUTHEAST
  else if d = "SW" then some .SOUTHWEST
  else none

/-- `calculate_direction(lat, lon)`: the north/south component is `N`
when `lat >= ny_lat`, the east/west component `E` when `lon >= ny_lon`,
and the concatenation is pushed through `direction_map[..].value`. -/
def calculate_direction (lat lon : Rat) : Option String :=
  let ns := if lat ≥ NY_LATITUDE then "N" else "S"
  let ew := if lon ≥ NY_LONGITUDE then "E" else "W"
  (directionMap (ns ++ ew)).map Direction.val

/-- One entry of the zip API's `places` list, already parsed to numbers
(`float(place.get(...))`). -/
structure Place where
  latitude : Rat
  longitude : Rat
  place_name : String
  state : String
  state_abbreviation : String
deriving DecidableEq, Repr

/-- The outcome of the outbound HTTP exchange in `fetch_zipcode_data`:
the status code and the parsed `places` list of the body. -/
structure ZipResponse where
  status_code : Nat
  places : List Place
deriving DecidableEq, Repr

/-- The dict `fetch_zipcode_data` returns on success. -/
structure LocationData where
  latitude : Rat
  longitude : Rat
  place_name : String
  state : String
  state_abbreviation : String
deriving DecidableEq, Repr

/-- `fetch_zipcode_data(postcode)` with the network exchange abstracted
into its outcome: `none` for a raised transport/parse error (caught and
turned into `None`), otherwise the response.  Non-200 statuses and an
empty `places` list also yield `None` — a result, not an exception. -/
def fetch_zipcode_data (exchange : Option ZipResponse) : Option LocationData :=
  match exchange with
  | none => none
  | some r =>
    if r.status_code ≠ 200 then none
    else
      match r.places with
      | [] => none
      | p :: _ =>
        some ⟨p.latitude, p.longitude, p.place_name, p.state, p.state_abbreviation⟩

/-! ## Document store and service (`src/routers/items/service.py`)

The Mongo collection is an association list from string ids to documents;
`item.save()` / `item.delete()` either succeed or raise, which the
`SaveOutcome` oracle decides (the service's `except Exception` handler
turns a raise into a `server`-keyed error).  Event emission is recorded
as the list of `(event_name, item_id)` pairs emitted by the call. -/

/-- A persisted `Item` document.  Its id is the key it is stored under. -/
structure StoredItem where
  name : String
  postcode : String
  latitude : Rat
  longitude : Rat
  direction_from_new_york : String
  title : Option String
  users : List String
  start_date : Int
  created_at : Int
  updated_at : Int
deriving DecidableEq, Repr

/-- The items collection. -/
def Db := List (String × StoredItem)

/-- `Item.objects(id=item_id).first()`. -/
def dbGet (db : Db) (i : String) : Option StoredItem :=
  match db with
  | [] => none
  | (k, it) :: rest => if k = i then some it else dbGet rest i

/-- A successful `item.save()`: insert or overwrite the document. -/
def dbSet (db : Db) (i : String) (it : StoredItem) : Db :=
  match db with
  | [] => [(i, it)]
  | (k, it') :: rest => if k = i then (i, it) :: rest else (k, it') :: dbSet rest i it

/-- A successful `item.delete()`. -/
def dbRemove (db : Db) (i : String) : Db :=
  match db with
  | [] => []
  | (k, it') :: rest => if k = i then rest else (k, it') :: dbRemove rest i

/-- `bson.ObjectId.is_valid` on a string: exactly 24 hexadecimal
characters. -/
def objectIdValid (s : String) : Bool :=
  s.length == 24 &&
    s.data.all (fun c =>
      c.isDigit || ('a' ≤ c && c ≤ 'f') || ('A' ≤ c && c ≤ 'F'))

/-- Whether a storage call (`save`/`delete`) succeeds or raises. -/
inductive SaveOutcome where
  | ok
  | raised (msg : String)
deriving DecidableEq, Repr

/-- Result of `ItemService.create_item`, with the updated store and the
events the call emitted. -/
structure CreateResult where
  item_id : Option String
  errors : Option (List (Field × String))
  db : Db
  events : List (String × String)

/-- `ItemService.create_item(data)`.  `data` arrives as the snake-cased
typed payload (the route builds it from the `ItemCreate` schema via
`model_dump()` and the service converts the keys; the key set is fixed,
so the conversion is the identity on this shape).  `geo` is the result
of `fetch_zipcode_data`, `save` the storage outcome, `newId` the id the
store assigns. -/
def ItemService.create_item (now : Int) (geo : Option LocationData)
    (save : SaveOutcome) (newId : String) (db : Db) (p : RawItem) :
    CreateResult :=
  let v := validate_item_data now p
  if !v.1 then ⟨none, some v.2, db, []⟩
  else
    match geo with
    | none => ⟨none, some [(.postcode, "Invalid or unrecognized postcode")], db, []⟩
    | some loc =>
      match save with
      | .raised e => ⟨none, some [(.server, "Internal error: " ++ e)], db, []⟩
      | .ok =>
        let item : StoredItem :=
          { name := p.name.getD ""
            postcode := p.postcode.getD ""
            latitude := loc.latitude
            longitude := loc.longitude
            direction_from_new_york :=
              (calculate_direction loc.latitude loc.longitude).getD ""
            title := p.title.getD none
            users := match p.users with | some (.items l) => l | _ => []
            start_date := p.start_date.getD 0
            created_at := now
            updated_at := now }
        ⟨some newId, none, dbSet db newId item, [("item_created", newId)]⟩

/-- The partial-update payload: the keys of `update_data` after the
route has dropped `None` fields and the service has restricted to the
mutable fields `name`, `title`, `users`, `start_date` (the `ItemUpdate`
schema admits no other key). -/
structure UpdatePayload where
  name : Option String := none
  title : Option String := none
  users : Option (List String) := none
  start_date : Option Int := none
deriving DecidableEq, Repr

/-- The three-way `name`/`users` cross-field check of
`ItemService.update_item`: (a) only `name` applied → check against the
stored `users`; (b) both applied → check against the new `users`;
(c) only `users` applied → check the stored `name` against it. -/
def updateCheck (item : StoredItem) (u : UpdatePayload) :
    Option (Field × String) :=
  match u.name, u.users with
  | some n, none =>
    if !(item.users.contains n) then
      some (.name, "Name must be included in the users list")
    else none
  | some n, some l =>
    if !(l.contains n) then
      some (.name, "Name must be included in the users list")
    else none
  | none, some l =>
    if !(l.contains item.name) then
      some (.users, "Users list must include the item name")
    else none
  | none, none => none

/-- Result of `ItemService.update_item`. -/
structure UpdateResult where
  success : Bool
  errors : Option (List (Field × String))
  db : Db
  events : List (String × String)

/-- `ItemService.update_item(item_id, data)`. -/
def ItemService.update_item (now : Int) (save : SaveOutcome) (db : Db)
    (item_id : String) (u : UpdatePayload) : UpdateResult :=
  if !objectIdValid item_id then
    ⟨false, some [(.id, "Invalid item ID format")], db, []⟩
  else
    match dbGet db item_id with
    | none => ⟨false, some [(.id, "Item not found")], db, []⟩
    | some item =>
      match updateCheck item u with
      | some err => ⟨false, some [err], db, []⟩
      | none =>
        if (match u.start_date with
            | some sd => !validate_start_date now sd
            | none => false) then
          ⟨false,
            some [(.start_date, "Start date must be at least 1 week after creation date")],
            db, []⟩
        else
          match save with
          | .raised e => ⟨false, some [(.server, "Internal error: " ++ e)], db, []⟩
          | .ok =>
            let item' : StoredItem :=
              { item with
                name := u.name.getD item.name
                title := match u.title with | some t => some t | none => item.title
                users := u.users.getD item.users
                start_date := u.start_date.getD item.start_date
                updated_at := now }
            ⟨true, none, dbSet db item_id item', [("item_updated", item_id)]⟩

/-- Result of `ItemService.delete_item` (its error is a plain string). -/
structure DeleteResult where
  success : Bool
  error : Option String
  db : Db
  events : List (String × String)

/-- `ItemService.delete_item(item_id)`. -/
def ItemService.delete_item (db : Db) (item_id : String)
    (del : SaveOutcome) : DeleteResult :=
  if !objectIdValid item_id then ⟨false, some "Invalid item ID format", db, []⟩
  else
    match dbGet db item_id with
    | none => ⟨false, some "Item not found", db, []⟩
    | some _ =>
      match del with
      | .raised e => ⟨false, some ("Internal error: " ++ e), db, []⟩
      | .ok => ⟨true, none, dbRemove db item_id, [("item_deleted", item_id)]⟩

/-- `ItemService.get_item_by_id(item_id)` (the camel-cased response dict
is built by the casing converter; only found/not-found matters here). -/
def ItemService.get_item_by_id (db : Db) (item_id : String) :
    Option StoredItem :=
  if !objectIdValid item_id then none
  else dbGet db item_id

/-! ## HTTP routes (`src/routers/items/routes.py`)

Each handler is modelled as a function to `(status, body, db, events)`.
`JSONResponse(status_code=..., content=...)` and `HTTPException` both
surface as the status/body pair. -/

/-- `needle` is a contiguous prefix of `hay`. -/
def listIsPre (needle hay : List Char) : Bool :=
  match needle, hay with
  | [], _ => true
  | _ :: _, [] => false
  | a :: as, b :: bs => a == b && listIsPre as bs

/-- `needle` occurs contiguously inside `hay`. -/
def containsSub (needle hay : List Char) : Bool :=
  listIsPre needle hay ||
    match hay with
    | [] => false
    | _ :: rest => containsSub needle rest

/-- Python `needle in hay` on strings. -/
def strContains (hay needle : String) : Bool := containsSub needle.data hay.data

/-- A response body: the created id, a success message, a field-keyed
`detail` mapping, a plain `detail` message, or an item representation. -/
inductive RouteBody where
  | idBody (i : String)
  | message (m : String)
  | detailErrors (e : List (Field × String))
  | detailMsg (m : String)
  | itemBody (it : StoredItem)
deriving DecidableEq, Repr

/-- A route call's observable outcome. -/
structure RouteOut where
  status : Nat
  body : RouteBody
  db : Db
  events : List (String × String)

/-- Python truthiness of the service's `errors` value (`if errors:`). -/
def errTruthy (e : Option (List (Field × String))) : Bool :=
  match e with
  | none => false
  | some l => !l.isEmpty

/-- `POST /items` (`create_item` route handler). -/
def routes.create_item (now : Int) (geo : Option LocationData)
    (save : SaveOutcome) (newId : String) (db : Db) (p : RawItem) : RouteOut :=
  let r := ItemService.create_item now geo save newId db p
  if errTruthy r.errors then ⟨400, .detailErrors (r.errors.getD []), r.db, r.events⟩
  else ⟨201, .idBody (r.item_id.getD ""), r.db, r.events⟩

/-- `update_data = {k: v for k, v in item.model_dump().items() if v is not None}`
is empty. -/
def UpdatePayload.isEmptyPay (u : UpdatePayload) : Bool :=
  u.name.isNone && u.title.isNone && u.users.isNone && u.start_date.isNone

/-- `PATCH /items/{item_id}` (`update_item` route handler): an empty
effective payload is rejected with key `_`; a failing service call is a
404 only when the `id`-keyed error message contains `"not found"`, and a
400 otherwise. -/
def routes.update_item (now : Int) (save : SaveOutcome) (db : Db)
    (item_id : String) (u : UpdatePayload) : RouteOut :=
  if u.isEmptyPay then
    ⟨400, .detailErrors [(.underscore, "No valid fields to update")], db, []⟩
  else
    let r := ItemService.update_item now save db item_id u
    if !r.success then
      let errs := r.errors.getD []
      if dictHasKey errs .id &&
          strContains ((dictLookup errs .id).getD "") "not found" then
        ⟨404, .detailMsg ("Item not found with ID: " ++ item_id), r.db, r.events⟩
      else ⟨400, .detailErrors errs, r.db, r.events⟩
    else ⟨200, .message "Item updated successfully", r.db, r.events⟩

/-- `DELETE /items/{item_id}` (`delete_item` route handler): a failing
service call is a 404 only when the error string is truthy and contains
`"not found"`, and a 500 otherwise. -/
def routes.delete_item (db : Db) (item_id : String) (del : SaveOutcome) :
    RouteOut :=
  let r := ItemService.delete_item db item_id del
  if !r.success then
    if (match r.error with
        | some e => !e.isEmpty && strContains e "not found"
        | none => false) then
      ⟨404, .detailMsg ("Item not found with ID: " ++ item_id), r.db, r.events⟩
    else ⟨500, .detailMsg ("Failed to delete item: " ++ (r.error.getD "")), r.db, r.events⟩
  else ⟨200, .message "Item deleted successfully", r.db, r.events⟩

/-- `GET /items/{item_id}` (`get_item` route handler). -/
def routes.get_item (db : Db) (item_id : String) : RouteOut :=
  match ItemService.get_item_by_id db item_id with
  | none => ⟨404, .detailMsg ("Item not found with ID: " ++ item_id), db, []⟩
  | some it => ⟨200, .itemBody it, db, []⟩

/-! ## Helper lemmas -/

theorem dbGet_dbSet_same (db : Db) (i : String) (it : StoredItem) :
    dbGet (dbSet db i it) i = some it := by
  induction db with
  | nil => simp [dbGet, dbSet]
  | cons kv rest ih =>
    obtain ⟨k, it'⟩ := kv
    by_cases h : k = i <;> simp [dbGet, dbSet, h, ih]

theorem dbGet_dbSet_other (db : Db) (i j : String) (it : StoredItem)
    (h : j ≠ i) : dbGet (dbSet db i it) j = dbGet db j := by
  induction db with
  | nil => simp [dbGet, dbSet, Ne.symm h]
  | cons kv rest ih =>
    obtain ⟨k, it'⟩ := kv
    by_cases hk : k = i
    · subst hk
      simp [dbGet, dbSet, Ne.symm h]
    · simp [dbGet, dbSet, hk, ih]

/-! ## C2: direction classification -/

/-- C2: for every latitude/longitude pair, `calculate_direction` is total
over the four quadrant codes, its north/south component is `N` exactly
when `lat ≥ 40.7128` and its east/west component is `E` exactly when
`lon ≥ -74.0060`; exact equality with the reference point resolves to
`N`/`E` (so the reference itself classifies as `NE`). -/
theorem claim_C2 (lat lon : Rat) :
    (calculate_direction lat lon = some "NE" ↔
      lat ≥ NY_LATITUDE ∧ lon ≥ NY_LONGITUDE) ∧
    (calculate_direction lat lon = some "NW" ↔
      lat ≥ NY_LATITUDE ∧ lon < NY_LONGITUDE) ∧
    (calculate_direction lat lon = some "SE" ↔
      lat < NY_LATITUDE ∧ lon ≥ NY_LONGITUDE) ∧
    (calculate_direction lat lon = some "SW" ↔
      lat < NY_LATITUDE ∧ lon < NY_LONGITUDE) ∧
    calculate_direction NY_LATITUDE NY_LONGITUDE = some "NE" ∧
    (∃ d, calculate_direction lat lon = some d ∧
      (d = "NE" ∨ d = "NW" ∨ d = "SE" ∨ d = "SW")) := by
  have htie : calculate_direction NY_LATITUDE NY_LONGITUDE = some "NE" := by
    simp [calculate_direction, directionMap, Direction.val]
  rcases le_or_lt NY_LATITUDE lat with h1 | h1 <;>
    rcases le_or_lt NY_LONGITUDE lon with h2 | h2
  · have hd : calculate_direction lat lon = some "NE" := by
      simp [calculate_direction, directionMap, Direction.val, ge_iff_le, h1, h2]
    refine ⟨?_, ?_, ?_, ?_, htie, "NE", hd, by simp⟩ <;>
      simp [hd, h1, h2, not_lt.mpr h1, not_lt.mpr h2]
  · have hd : calculate_direction lat lon = some "NW" := by
      simp [calculate_direction, directionMap, Direction.val, ge_iff_le, h1, not_le.mpr h2]
    refine ⟨?_, ?_, ?_, ?_, htie, "NW", hd, by simp⟩ <;>
      simp [hd, h1, h2, not_lt.mpr h1, not_le.mpr h2]
  · have hd : calculate_direction lat lon = some "SE" := by
      simp [calculate_direction, directionMap, Direction.val, ge_iff_le, not_le.mpr h1, h2]
    refine ⟨?_, ?_, ?_, ?_, htie, "SE", hd, by simp⟩ <;>
      simp [hd, h1, h2, not_le.mpr h1, not_lt.mpr h2]
  · have hd : calculate_direction lat lon = some "SW" := by
      simp [calculate_direction, directionMap, Direction.val, ge_iff_le, not_le.mpr h1, not_le.mpr h2]
    refine ⟨?_, ?_, ?_, ?_, htie, "SW", hd, by simp⟩ <;>
      simp [hd, h1, h2, not_le.mpr h1, not_le.mpr h2]

/-! ## C3: malformed vs absent identifiers

Only the read route folds a malformed id into the 404; the update route
answers 400 for it (its 404 guard requires the `id` error message to
contain `"not found"`, and the malformed-id message is
`"Invalid item ID format"`), and the delete route answers 500. -/

/-- C3 counterexample: on the malformed identifier `"bad"` the update
route returns 400 and the delete route returns 500 — not the 404 the
claim requires for every id-carrying request. -/
theorem counterexample_C3 :
    (routes.update_item 0 .ok [] "bad" { name := some "A" }).status = 400 ∧
    (routes.delete_item [] "bad" .ok).status = 500 ∧
    (400 : Nat) ≠ 404 ∧ (500 : Nat) ≠ 404 := by
  exact ⟨rfl, rfl, by decide, by decide⟩

/-- C3 (amended): for the read route, malformed and absent identifiers
are indistinguishable — both give the same 404 response; for the update
route only an absent identifier gives 404 while a malformed one gives
400; for the delete route only an absent identifier gives 404 while a
malformed one gives 500. -/
theorem claim_C3 (now : Int) (save del : SaveOutcome) (db : Db)
    (item_id : String) (u : UpdatePayload) :
    (objectIdValid item_id = false ∨ dbGet db item_id = none →
      routes.get_item db item_id =
        ⟨404, .detailMsg ("Item not found with ID: " ++ item_id), db, []⟩) ∧
    (u.isEmptyPay = false → objectIdValid item_id = true →
      dbGet db item_id = none →
      (routes.update_item now save db item_id u).status = 404) ∧
    (u.isEmptyPay = false → objectIdValid item_id = false →
      (routes.update_item now save db item_id u).status = 400) ∧
    (objectIdValid item_id = true → dbGet db item_id = none →
      (routes.delete_item db item_id del).status = 404) ∧
    (objectIdValid item_id = false →
      (routes.delete_item db item_id del).status = 500) := by
  refine ⟨?_, ?_, ?_, ?_, ?_⟩
  · intro h
    have hnone : ItemService.get_item_by_id db item_id = none := by
      rcases h with h | h
      · simp [ItemService.get_item_by_id, h]
      · by_cases hv : objectIdValid item_id <;>
          simp [ItemService.get_item_by_id, hv, h]
    simp [routes.get_item, hnone]
  · intro hne hv hget
    have hsvc : ItemService.update_item now save db item_id u =
        ⟨false, some [(.id, "Item not found")], db, []⟩ := by
      simp [ItemService.update_item, hv, hget]
    have hc : (dictHasKey [(Field.id, "Item not found")] Field.id &&
        strContains ((dictLookup [(Field.id, "Item not found")] Field.id).getD "")
          "not found") = true := by decide
    simp [routes.update_item, hne, hsvc, hc]
  · intro hne hv
    have hsvc : ItemService.update_item now save db item_id u =
        ⟨false, some [(.id, "Invalid item ID format")], db, []⟩ := by
      simp [ItemService.update_item, hv]
    have hc : (dictHasKey [(Field.id, "Invalid item ID format")] Field.id &&
        strContains ((dictLookup [(Field.id, "Invalid item ID format")] Field.id).getD "")
          "not found") = false := by decide
    simp [routes.update_item, hne, hsvc, hc]
  · intro hv hget
    have hsvc : ItemService.delete_item db item_id del =
        ⟨false, some "Item not found", db, []⟩ := by
      simp [ItemService.delete_item, hv, hget]
    have hc : (!String.isEmpty "Item not found" &&
        strContains "Item not found" "not found") = true := by decide
    simp [routes.delete_item, hsvc, hc]
  · intro hv
    have hsvc : ItemService.delete_item db item_id del =
        ⟨false, some "Invalid item ID format", db, []⟩ := by
      simp [ItemService.delete_item, hv]
    have hc : (!String.isEmpty "Invalid item ID format" &&
        strContains "Invalid item ID format" "not found") = false := by decide
    simp [routes.delete_item, hsvc, hc]

/-- C3 witness: the amended theorem applied at concrete inputs — an
absent well-formed id gives 404 on all three routes, and the malformed
id `"bad"` gives 400 on update and 500 on delete. -/
theorem claim_C3_witness :
    routes.get_item [] "0123456789abcdef01234567" =
      ⟨404, .detailMsg "Item not found with ID: 0123456789abcdef01234567", [], []⟩ ∧
    (routes.update_item 0 .ok [] "0123456789abcdef01234567"
      { name := some "A" }).status = 404 ∧
    (routes.delete_item [] "0123456789abcdef01234567" .ok).status = 404 ∧
    (routes.update_item 0 .ok [] "bad" { name := some "A" }).status = 400 ∧
    (routes.delete_item [] "bad" .ok).status = 500 := by
  have h1 := claim_C3 0 .ok .ok [] "0123456789abcdef01234567" { name := some "A" }
  have h2 := claim_C3 0 .ok .ok [] "bad" { name := some "A" }
  exact ⟨h1.1 (Or.inr rfl), h1.2.1 (by decide) (by decide) rfl,
    h1.2.2.2.1 (by decide) rfl, h2.2.2.1 (by decide) (by decide),
    h2.2.2.2.2 (by decide)⟩

/-! ## C4: error taxonomy surfaced by the routes

The service does keep unexpected storage faults in a distinct
`server`-keyed error category, but the create and update routes surface
that category with status 400, exactly like a validation failure; only
the delete route surfaces it as 500. -/

/-- C4 counterexample: a storage fault during creation (otherwise valid
payload, resolvable postcode) is surfaced as 400 with the `server`-keyed
detail — not as the 500 the claim requires. -/
theorem counterexample_C4 :
    (routes.create_item 0 (some ⟨40, -74, "NY", "New York", "NY"⟩)
        (.raised "boom") "0123456789abcdef01234567" []
        { name := some "Alice", postcode := some "10001",
          users := some (.items ["Alice"]), start_date := some 604800 }).status
      = 400 ∧
    (routes.create_item 0 (some ⟨40, -74, "NY", "New York", "NY"⟩)
        (.raised "boom") "0123456789abcdef01234567" []
        { name := some "Alice", postcode := some "10001",
          users := some (.items ["Alice"]), start_date := some 604800 }).body
      = .detailErrors [(.server, "Internal error: boom")] ∧
    (400 : Nat) ≠ 500 := by
  exact ⟨rfl, rfl, by decide⟩

/-- C4 (amended): expected failures are structured field-keyed results
surfaced as 400, and an unexpected storage fault is kept in a distinct
`server`-keyed category and never yields a success or an empty result —
but only the delete route surfaces that category as 500; the create and
update routes return it as a 400 like a validation error. -/
theorem claim_C4 (now : Int) (geo : Option LocationData) (e : String)
    (newId : String) (db : Db) (p : RawItem) (item_id : String)
    (u : UpdatePayload) (item : StoredItem) :
    ((validate_item_data now p).1 = false →
      routes.create_item now geo (.raised e) newId db p =
        ⟨400, .detailErrors (validate_item_data now p).2, db, []⟩) ∧
    ((validate_item_data now p).1 = true →
      routes.create_item now none (.raised e) newId db p =
        ⟨400, .detailErrors [(.postcode, "Invalid or unrecognized postcode")], db, []⟩) ∧
    ((validate_item_data now p).1 = true → ∀ loc, geo = some loc →
      routes.create_item now geo (.raised e) newId db p =
        ⟨400, .detailErrors [(.server, "Internal error: " ++ e)], db, []⟩) ∧
    (u.isEmptyPay = false → objectIdValid item_id = true →
      dbGet db item_id = some item → updateCheck item u = none →
      (∀ sd, u.start_date = some sd → validate_start_date now sd = true) →
      routes.update_item now (.raised e) db item_id u =
        ⟨400, .detailErrors [(.server, "Internal error: " ++ e)], db, []⟩) ∧
    (objectIdValid item_id = true → dbGet db item_id = some item →
      strContains ("Internal error: " ++ e) "not found" = false →
      routes.delete_item db item_id (.raised e) =
        ⟨500, .detailMsg ("Failed to delete item: " ++ ("Internal error: " ++ e)), db, []⟩) := by
  refine ⟨?_, ?_, ?_, ?_, ?_⟩
  · intro hval
    have hne : (validate_item_data now p).2.isEmpty = false := by
      have : (validate_item_data now p).1 = (validate_item_data now p).2.isEmpty := rfl
      rw [this] at hval
      exact hval
    simp [routes.create_item, ItemService.create_item, hval, errTruthy, hne]
  · intro hval
    simp [routes.create_item, ItemService.create_item, hval, errTruthy]
  · intro hval loc hloc
    subst hloc
    simp [routes.create_item, ItemService.create_item, hval, errTruthy]
  · intro hne hv hget hchk hsd
    have hmatch : (match u.start_date with
        | some sd => !validate_start_date now sd
        | none => false) = false := by
      cases hu : u.start_date with
      | none => rfl
      | some sd => simp [hsd sd hu]
    have hsvc : ItemService.update_item now (.raised e) db item_id u =
        ⟨false, some [(.server, "Internal error: " ++ e)], db, []⟩ := by
      simp [ItemService.update_item, hv, hget, hchk, hmatch]
    have hc : dictHasKey [(Field.server, "Internal error: " ++ e)] Field.id = false := by
      simp [dictHasKey]
    simp [routes.update_item, hne, hsvc, hc]
  · intro hv hget hcontains
    have hsvc : ItemService.delete_item db item_id (.raised e) =
        ⟨false, some ("Internal error: " ++ e), db, []⟩ := by
      simp [ItemService.delete_item, hv, hget]
    simp [routes.delete_item, hsvc, hcontains, String.append_assoc]

/-- C4 witness: the amended theorem applied at concrete inputs. -/
theorem claim_C4_witness :
    routes.update_item 0 (.raised "boom") [("0123456789abcdef01234567",
        ⟨"Alice", "10001", 40, -74, "NE", none, ["Alice"], 604800, 0, 0⟩)]
        "0123456789abcdef01234567" { title := some "T" } =
      ⟨400, .detailErrors [(.server, "Internal error: boom")],
        [("0123456789abcdef01234567",
          ⟨"Alice", "10001", 40, -74, "NE", none, ["Alice"], 604800, 0, 0⟩)], []⟩ ∧
    routes.delete_item [("0123456789abcdef01234567",
        ⟨"Alice", "10001", 40, -74, "NE", none, ["Alice"], 604800, 0, 0⟩)]
        "0123456789abcdef01234567" (.raised "boom") =
      ⟨500, .detailMsg "Failed to delete item: Internal error: boom",
        [("0123456789abcdef01234567",
          ⟨"Alice", "10001", 40, -74, "NE", none, ["Alice"], 604800, 0, 0⟩)], []⟩ := by
  have h := claim_C4 0 none "boom" "x" [("0123456789abcdef01234567",
    ⟨"Alice", "10001", 40, -74, "NE", none, ["Alice"], 604800, 0, 0⟩)]
    {} "0123456789abcdef01234567" { title := some "T" }
    ⟨"Alice", "10001", 40, -74, "NE", none, ["Alice"], 604800, 0, 0⟩
  refine ⟨?_, ?_⟩
  · exact h.2.2.2.1 (by decide) (by decide) rfl rfl (fun sd hsd => by simp at hsd)
  · exact h.2.2.2.2 (by decide) rfl (by decide)

/-! ## C8: unresolvable postcode during creation -/

/-- C8: when a create payload passes field validation but the zip lookup
comes back non-200 or with an empty place list, `fetch_zipcode_data`
returns `None` (a result, not a raised error), and the create route
answers 400 with the error keyed on `postcode`; the store is untouched
and no event is emitted. -/
theorem claim_C8 (now : Int) (save : SaveOutcome) (newId : String) (db : Db)
    (p : RawItem) (r : ZipResponse)
    (hval : (validate_item_data now p).1 = true)
    (hbad : r.status_code ≠ 200 ∨ r.places = []) :
    fetch_zipcode_data (some r) = none ∧
    routes.create_item now (fetch_zipcode_data (some r)) save newId db p =
      ⟨400, .detailErrors [(.postcode, "Invalid or unrecognized postcode")],
        db, []⟩ := by
  have hf : fetch_zipcode_data (some r) = none := by
    rcases hbad with h | h
    · simp [fetch_zipcode_data, h]
    · by_cases hs : r.status_code = 200 <;> simp [fetch_zipcode_data, hs, h]
  refine ⟨hf, ?_⟩
  rw [hf]
  simp [routes.create_item, ItemService.create_item, hval, errTruthy]

/-- C8 witness: a 404 lookup response for an otherwise valid payload. -/
theorem claim_C8_witness :
    fetch_zipcode_data (some ⟨404, []⟩) = none ∧
    routes.create_item 0 (fetch_zipcode_data (some ⟨404, []⟩)) .ok "x" []
        { name := some "Alice", postcode := some "10001",
          users := some (.items ["Alice"]), start_date := some 604800 } =
      ⟨400, .detailErrors [(.postcode, "Invalid or unrecognized postcode")],
        [], []⟩ := by
  exact claim_C8 0 .ok "x" []
    { name := some "Alice", postcode := some "10001",
      users := some (.items ["Alice"]), start_date := some 604800 }
    ⟨404, []⟩ (by decide) (Or.inl (by decide))

/-! ## C1: the three-way name/users cross-field rule on update -/

/-- C1: for an update of an existing item, the three-way rule holds:
only `name` applied → it must be in the stored `users` (else failure
keyed on `name`); both applied → the new name must be in the new list
(else failure keyed on `name`); only `users` applied → the stored name
must be in the new list (else failure keyed on `users`).  In each
failing case the service reports the failure, writes nothing, emits
nothing, and the route surfaces a 400; and a successful update implies
the respective membership held. -/
theorem claim_C1 (now : Int) (save : SaveOutcome) (db : Db)
    (item_id : String) (u : UpdatePayload) (item : StoredItem)
    (hid : objectIdValid item_id = true)
    (hget : dbGet db item_id = some item) :
    (∀ n, u.name = some n → u.users = none → item.users.contains n = false →
      ItemService.update_item now save db item_id u =
        ⟨false, some [(.name, "Name must be included in the users list")], db, []⟩ ∧
      (routes.update_item now save db item_id u).status = 400) ∧
    (∀ n l, u.name = some n → u.users = some l → l.contains n = false →
      ItemService.update_item now save db item_id u =
        ⟨false, some [(.name, "Name must be included in the users list")], db, []⟩ ∧
      (routes.update_item now save db item_id u).status = 400) ∧
    (∀ l, u.name = none → u.users = some l → l.contains item.name = false →
      ItemService.update_item now save db item_id u =
        ⟨false, some [(.users, "Users list must include the item name")], db, []⟩ ∧
      (routes.update_item now save db item_id u).status = 400) ∧
    ((ItemService.update_item now save db item_id u).success = true →
      (∀ n, u.name = some n → u.users = none → item.users.contains n = true) ∧
      (∀ n l, u.name = some n → u.users = some l → l.contains n = true) ∧
      (∀ l, u.name = none → u.users = some l → l.contains item.name = true)) := by
  have route400 : ∀ errs, ItemService.update_item now save db item_id u =
      ⟨false, some errs, db, []⟩ → dictHasKey errs .id = false →
      u.isEmptyPay = false →
      (routes.update_item now save db item_id u).status = 400 := by
    intro errs hsvc hkey hne
    simp [routes.update_item, hne, hsvc, hkey]
  have main1 : ∀ n, u.name = some n → u.users = none →
      item.users.contains n = false →
      ItemService.update_item now save db item_id u =
        ⟨false, some [(.name, "Name must be included in the users list")], db, []⟩ := by
    intro n hn hu hc
    have hmem : n ∉ item.users := by simpa using hc
    have hchk : updateCheck item u =
        some (.name, "Name must be included in the users list") := by
      simp [updateCheck, hn, hu, hmem]
    simp [ItemService.update_item, hid, hget, hchk]
  have main2 : ∀ n l, u.name = some n → u.users = some l →
      l.contains n = false →
      ItemService.update_item now save db item_id u =
        ⟨false, some [(.name, "Name must be included in the users list")], db, []⟩ := by
    intro n l hn hu hc
    have hmem : n ∉ l := by simpa using hc
    have hchk : updateCheck item u =
        some (.name, "Name must be included in the users list") := by
      simp [updateCheck, hn, hu, hmem]
    simp [ItemService.update_item, hid, hget, hchk]
  have main3 : ∀ l, u.name = none → u.users = some l →
      l.contains item.name = false →
      ItemService.update_item now save db item_id u =
        ⟨false, some [(.users, "Users list must include the item name")], db, []⟩ := by
    intro l hn hu hc
    have hmem : item.name ∉ l := by simpa using hc
    have hchk : updateCheck item u =
        some (.users, "Users list must include the item name") := by
      simp [updateCheck, hn, hu, hmem]
    simp [ItemService.update_item, hid, hget, hchk]
  refine ⟨?_, ?_, ?_, ?_⟩
  · intro n hn hu hc
    refine ⟨main1 n hn hu hc, route400 _ (main1 n hn hu hc) (by simp [dictHasKey]) ?_⟩
    simp [UpdatePayload.isEmptyPay, hn]
  · intro n l hn hu hc
    refine ⟨main2 n l hn hu hc, route400 _ (main2 n l hn hu hc) (by simp [dictHasKey]) ?_⟩
    simp [UpdatePayload.isEmptyPay, hn]
  · intro l hn hu hc
    refine ⟨main3 l hn hu hc, route400 _ (main3 l hn hu hc) (by simp [dictHasKey]) ?_⟩
    simp [UpdatePayload.isEmptyPay, hu]
  · intro hs
    refine ⟨?_, ?_, ?_⟩
    · intro n hn hu
      cases hc : item.users.contains n with
      | true => rfl
      | false => rw [main1 n hn hu hc] at hs; simp at hs
    · intro n l hn hu
      cases hc : l.contains n with
      | true => rfl
      | false => rw [main2 n l hn hu hc] at hs; simp at hs
    · intro l hn hu
      cases hc : l.contains item.name with
      | true => rfl
      | false => rw [main3 l hn hu hc] at hs; simp at hs

/-- C1 witness: each of the three violating cases at concrete inputs. -/
theorem claim_C1_witness :
    ItemService.update_item 0 .ok [("0123456789abcdef01234567",
        ⟨"Alice", "10001", 40, -74, "NE", none, ["Alice", "Bob"], 604800, 0, 0⟩)]
        "0123456789abcdef01234567" { name := some "Carol" } =
      ⟨false, some [(.name, "Name must be included in the users list")],
        [("0123456789abcdef01234567",
          ⟨"Alice", "10001", 40, -74, "NE", none, ["Alice", "Bob"], 604800, 0, 0⟩)], []⟩ ∧
    ItemService.update_item 0 .ok [("0123456789abcdef01234567",
        ⟨"Alice", "10001", 40, -74, "NE", none, ["Alice", "Bob"], 604800, 0, 0⟩)]
        "0123456789abcdef01234567" { name := some "Carol", users := some ["Dan"] } =
      ⟨false, some [(.name, "Name must be included in the users list")],
        [("0123456789abcdef01234567",
          ⟨"Alice", "10001", 40, -74, "NE", none, ["Alice", "Bob"], 604800, 0, 0⟩)], []⟩ ∧
    ItemService.update_item 0 .ok [("0123456789abcdef01234567",
        ⟨"Alice", "10001", 40, -74, "NE", none, ["Alice", "Bob"], 604800, 0, 0⟩)]
        "0123456789abcdef01234567" { users := some ["Dan"] } =
      ⟨false, some [(.users, "Users list must include the item name")],
        [("0123456789abcdef01234567",
          ⟨"Alice", "10001", 40, -74, "NE", none, ["Alice", "Bob"], 604800, 0, 0⟩)], []⟩ := by
  have h1 := claim_C1 0 .ok [("0123456789abcdef01234567",
    ⟨"Alice", "10001", 40, -74, "NE", none, ["Alice", "Bob"], 604800, 0, 0⟩)]
    "0123456789abcdef01234567" { name := some "Carol" }
    ⟨"Alice", "10001", 40, -74, "NE", none, ["Alice", "Bob"], 604800, 0, 0⟩
    (by decide) rfl
  have h2 := claim_C1 0 .ok [("0123456789abcdef01234567",
    ⟨"Alice", "10001", 40, -74, "NE", none, ["Alice", "Bob"], 604800, 0, 0⟩)]
    "0123456789abcdef01234567" { name := some "Carol", users := some ["Dan"] }
    ⟨"Alice", "10001", 40, -74, "NE", none, ["Alice", "Bob"], 604800, 0, 0⟩
    (by decide) rfl
  have h3 := claim_C1 0 .ok [("0123456789abcdef01234567",
    ⟨"Alice", "10001", 40, -74, "NE", none, ["Alice", "Bob"], 604800, 0, 0⟩)]
    "0123456789abcdef01234567" { users := some ["Dan"] }
    ⟨"Alice", "10001", 40, -74, "NE", none, ["Alice", "Bob"], 604800, 0, 0⟩
    (by decide) rfl
  exact ⟨(h1.1 "Carol" rfl rfl (by decide)).1,
    (h2.2.1 "Carol" ["Dan"] rfl rfl (by decide)).1,
    (h3.2.2.1 ["Dan"] rfl rfl (by decide)).1⟩

/-! ## Shape lemmas for the service operations -/

/-- `create_item` either fails leaving the store untouched and emitting
nothing, or succeeds writing exactly the new document and emitting
exactly `item_created`. -/
theorem create_shape (now : Int) (geo : Option LocationData)
    (save : SaveOutcome) (newId : String) (db : Db) (p : RawItem) :
    (∃ errs, ItemService.create_item now geo save newId db p =
      ⟨none, some errs, db, []⟩) ∨
    (∃ it, ItemService.create_item now geo save newId db p =
      ⟨some newId, none, dbSet db newId it, [("item_created", newId)]⟩) := by
  by_cases hval : (validate_item_data now p).1
  · cases geo with
    | none =>
      exact Or.inl ⟨[(.postcode, "Invalid or unrecognized postcode")],
        by simp [ItemService.create_item, hval]⟩
    | some loc =>
      cases save with
      | raised e =>
        exact Or.inl ⟨[(.server, "Internal error: " ++ e)],
          by simp [ItemService.create_item, hval]⟩
      | ok =>
        refine Or.inr ⟨?doc, ?_⟩
        case doc =>
          exact
            { name := p.name.getD ""
              postcode := p.postcode.getD ""
              latitude := loc.latitude
              longitude := loc.longitude
              direction_from_new_york :=
                (calculate_direction loc.latitude loc.longitude).getD ""
              title := p.title.getD none
              users := match p.users with | some (.items l) => l | _ => []
              start_date := p.start_date.getD 0
              created_at := now
              updated_at := now }
        simp [ItemService.create_item, hval]
  · have hval' : (validate_item_data now p).1 = false := by simpa using hval
    exact Or.inl ⟨(validate_item_data now p).2,
      by simp [ItemService.create_item, hval']⟩

/-- `update_item` either fails leaving the store untouched and emitting
nothing, or succeeds on a stored item, writing exactly the mutable-field
update of that item and emitting exactly `item_updated`. -/
theorem update_shape (now : Int) (save : SaveOutcome) (db : Db)
    (item_id : String) (u : UpdatePayload) :
    (∃ errs, ItemService.update_item now save db item_id u =
      ⟨false, some errs, db, []⟩) ∨
    (∃ item, dbGet db item_id = some item ∧
      ItemService.update_item now save db item_id u =
        ⟨true, none,
          dbSet db item_id
            { item with
              name := u.name.getD item.name
              title := match u.title with | some t => some t | none => item.title
              users := u.users.getD item.users
              start_date := u.start_date.getD item.start_date
              updated_at := now },
          [("item_updated", item_id)]⟩) := by
  by_cases hv : objectIdValid item_id
  · cases hget : dbGet db item_id with
    | none =>
      exact Or.inl ⟨[(.id, "Item not found")],
        by simp [ItemService.update_item, hv, hget]⟩
    | some item =>
      cases hchk : updateCheck item u with
      | some err =>
        exact Or.inl ⟨[err], by simp [ItemService.update_item, hv, hget, hchk]⟩
      | none =>
        by_cases hsd : (match u.start_date with
            | some sd => !validate_start_date now sd
            | none => false) = true
        · exact Or.inl ⟨[(.start_date,
            "Start date must be at least 1 week after creation date")],
            by simp [ItemService.update_item, hv, hget, hchk, hsd]⟩
        · have hsd' : (match u.start_date with
              | some sd => !validate_start_date now sd
              | none => false) = false := by
            simpa using hsd
          cases save with
          | raised e =>
            exact Or.inl ⟨[(.server, "Internal error: " ++ e)],
              by simp [ItemService.update_item, hv, hget, hchk, hsd']⟩
          | ok =>
            exact Or.inr ⟨item, rfl,
              by simp [ItemService.update_item, hv, hget, hchk, hsd']⟩
  · have hv' : objectIdValid item_id = false := by simpa using hv
    exact Or.inl ⟨[(.id, "Invalid item ID format")],
      by simp [ItemService.update_item, hv']⟩

/-- `delete_item` either fails leaving the store untouched and emitting
nothing, or succeeds removing the document and emitting exactly
`item_deleted`. -/
theorem delete_shape (db : Db) (item_id : String) (del : SaveOutcome) :
    (∃ msg, ItemService.delete_item db item_id del =
      ⟨false, some msg, db, []⟩) ∨
    ItemService.delete_item db item_id del =
      ⟨true, none, dbRemove db item_id, [("item_deleted", item_id)]⟩ := by
  by_cases hv : objectIdValid item_id
  · cases hget : dbGet db item_id with
    | none =>
      exact Or.inl ⟨"Item not found", by simp [ItemService.delete_item, hv, hget]⟩
    | some item =>
      cases del with
      | raised e =>
        exact Or.inl ⟨"Internal error: " ++ e,
          by simp [ItemService.delete_item, hv, hget]⟩
      | ok => exact Or.inr (by simp [ItemService.delete_item, hv, hget])
  · have hv' : objectIdValid item_id = false := by simpa using hv
    exact Or.inl ⟨"Invalid item ID format", by simp [ItemService.delete_item, hv']⟩

/-! ## C9: frame of a successful update -/

/-- C9: a successful update applies exactly the requested mutable fields
plus the `updated_at` refresh; `postcode`, `latitude`, `longitude`,
`direction_from_new_york` and `created_at` are untouched (never
re-derived), the document stays under its id, and every other document
is untouched. -/
theorem claim_C9 (now : Int) (save : SaveOutcome) (db : Db)
    (item_id : String) (u : UpdatePayload) (item : StoredItem)
    (hget : dbGet db item_id = some item)
    (hsucc : (ItemService.update_item now save db item_id u).success = true) :
    ∃ item',
      dbGet (ItemService.update_item now save db item_id u).db item_id =
        some item' ∧
      item'.postcode = item.postcode ∧
      item'.latitude = item.latitude ∧
      item'.longitude = item.longitude ∧
      item'.direction_from_new_york = item.direction_from_new_york ∧
      item'.created_at = item.created_at ∧
      item'.name = u.name.getD item.name ∧
      item'.users = u.users.getD item.users ∧
      item'.start_date = u.start_date.getD item.start_date ∧
      item'.title = (match u.title with | some t => some t | none => item.title) ∧
      item'.updated_at = now ∧
      (∀ k, k ≠ item_id →
        dbGet (ItemService.update_item now save db item_id u).db k =
          dbGet db k) := by
  rcases update_shape now save db item_id u with ⟨errs, heq⟩ | ⟨item0, hget0, heq⟩
  · rw [heq] at hsucc
    simp at hsucc
  · have hitem : item0 = item := by
      rw [hget0] at hget
      exact Option.some.inj hget
    subst hitem
    refine ⟨{ item0 with
        name := u.name.getD item0.name
        title := (match u.title with | some t => some t | none => item0.title)
        users := u.users.getD item0.users
        start_date := u.start_date.getD item0.start_date
        updated_at := now },
      ?_, rfl, rfl, rfl, rfl, rfl, rfl, rfl, rfl, rfl, rfl, ?_⟩
    · rw [heq]
      exact dbGet_dbSet_same db item_id _
    · intro k hk
      rw [heq]
      exact dbGet_dbSet_other db item_id k _ hk

/-- C9 witness: a concrete successful update changing `name` leaves the
derived and immutable fields as they were. -/
theorem claim_C9_witness :
    ∃ item',
      dbGet (ItemService.update_item 999 .ok [("0123456789abcdef01234567",
          ⟨"Alice", "10001", 40, -74, "NE", none, ["Alice", "Bob"], 604800, 5, 6⟩)]
          "0123456789abcdef01234567" { name := some "Bob" }).db
        "0123456789abcdef01234567" = some item' ∧
      item'.postcode = "10001" ∧
      item'.latitude = 40 ∧
      item'.longitude = -74 ∧
      item'.direction_from_new_york = "NE" ∧
      item'.created_at = 5 ∧
      item'.name = "Bob" ∧
      item'.updated_at = 999 := by
  have h := claim_C9 999 .ok [("0123456789abcdef01234567",
    ⟨"Alice", "10001", 40, -74, "NE", none, ["Alice", "Bob"], 604800, 5, 6⟩)]
    "0123456789abcdef01234567" { name := some "Bob" }
    ⟨"Alice", "10001", 40, -74, "NE", none, ["Alice", "Bob"], 604800, 5, 6⟩
    rfl (by decide)
  obtain ⟨item', h1, h2, h3, h4, h5, h6, h7, h8, h9, h10, h11, h12⟩ := h
  exact ⟨item', h1, h2, h3, h4, h5, h6, h7, h11⟩

/-! ## C10: no write and no event on failure -/

/-- C10: whenever a service operation fails, the document store is
untouched and no lifecycle event is emitted; and whenever a lifecycle
event is emitted, the operation succeeded and the corresponding write
(save or delete) was performed. -/
theorem claim_C10 (now : Int) (geo : Option LocationData)
    (save del : SaveOutcome) (newId : String) (db : Db) (item_id : String)
    (p : RawItem) (u : UpdatePayload) :
    ((ItemService.create_item now geo save newId db p).errors ≠ none →
      (ItemService.create_item now geo save newId db p).db = db ∧
      (ItemService.create_item now geo save newId db p).events = []) ∧
    ((ItemService.create_item now geo save newId db p).events ≠ [] →
      (ItemService.create_item now geo save newId db p).errors = none ∧
      ∃ it, (ItemService.create_item now geo save newId db p).db =
        dbSet db newId it) ∧
    ((ItemService.update_item now save db item_id u).success = false →
      (ItemService.update_item now save db item_id u).db = db ∧
      (ItemService.update_item now save db item_id u).events = []) ∧
    ((ItemService.update_item now save db item_id u).events ≠ [] →
      (ItemService.update_item now save db item_id u).success = true ∧
      ∃ it, (ItemService.update_item now save db item_id u).db =
        dbSet db item_id it) ∧
    ((ItemService.delete_item db item_id del).success = false →
      (ItemService.delete_item db item_id del).db = db ∧
      (ItemService.delete_item db item_id del).events = []) ∧
    ((ItemService.delete_item db item_id del).events ≠ [] →
      (ItemService.delete_item db item_id del).success = true ∧
      (ItemService.delete_item db item_id del).db = dbRemove db item_id) := by
  refine ⟨?_, ?_, ?_, ?_, ?_, ?_⟩
  · intro hfail
    rcases create_shape now geo save newId db p with ⟨errs, heq⟩ | ⟨it, heq⟩
    · simp [heq]
    · rw [heq] at hfail
      simp at hfail
  · intro hev
    rcases create_shape now geo save newId db p with ⟨errs, heq⟩ | ⟨it, heq⟩
    · rw [heq] at hev
      simp at hev
    · rw [heq]
      exact ⟨rfl, it, rfl⟩
  · intro hfail
    rcases update_shape now save db item_id u with ⟨errs, heq⟩ | ⟨item, hget, heq⟩
    · simp [heq]
    · rw [heq] at hfail
      simp at hfail
  · intro hev
    rcases update_shape now save db item_id u with ⟨errs, heq⟩ | ⟨item, hget, heq⟩
    · rw [heq] at hev
      simp at hev
    · rw [heq]
      exact ⟨rfl, _, rfl⟩
  · intro hfail
    rcases delete_shape db item_id del with ⟨msg, heq⟩ | heq
    · simp [heq]
    · rw [heq] at hfail
      simp at hfail
  · intro hev
    rcases delete_shape db item_id del with ⟨msg, heq⟩ | heq
    · rw [heq] at hev
      simp at hev
    · rw [heq]
      exact ⟨rfl, rfl⟩

/-- C10 witness: an invalid-id update and a validation-failing create at
concrete inputs leave the store untouched and emit nothing. -/
theorem claim_C10_witness :
    ((ItemService.create_item 0 none .ok "x" [] {}).db = [] ∧
      (ItemService.create_item 0 none .ok "x" [] {}).events = []) ∧
    ((ItemService.update_item 0 .ok [] "bad" { name := some "A" }).db = [] ∧
      (ItemService.update_item 0 .ok [] "bad" { name := some "A" }).events = []) ∧
    ((ItemService.delete_item [] "bad" .ok).db = [] ∧
      (ItemService.delete_item [] "bad" .ok).events = []) := by
  have h := claim_C10 0 none .ok .ok "x" [] "bad" {} { name := some "A" }
  exact ⟨h.1 (by decide), h.2.2.1 (by decide), h.2.2.2.2.1 (by decide)⟩

/-! ## C5: the validator accumulates all violations -/

theorem hasKey_cons (a : Field) (b : String) (rest : List (Field × String))
    (k : Field) :
    dictHasKey ((a, b) :: rest) k = true ↔
      (a = k ∨ dictHasKey rest k = true) := by
  simp [dictHasKey]

theorem dictSet_hasKey (d : List (Field × String)) (k : Field) (v : String)
    (k' : Field) :
    dictHasKey (dictSet d k v) k' = true ↔ (k = k' ∨ dictHasKey d k' = true) := by
  induction d with
  | nil =>
    show dictHasKey [(k, v)] k' = true ↔ _
    rw [hasKey_cons]
  | cons kv rest ih =>
    obtain ⟨k0, v0⟩ := kv
    simp only [dictSet]
    by_cases h : k0 = k
    · rw [if_pos h, hasKey_cons, hasKey_cons, h]
      tauto
    · rw [if_neg h, hasKey_cons, ih, hasKey_cons]
      tauto

theorem usersLoop_hasKey (l : List String) (e : List (Field × String))
    (i : Nat) (k : Field) :
    dictHasKey (usersLoop e l i) k = true ↔
      ((∃ j u, l.get? j = some u ∧ 50 < u.length ∧ k = .usersElem (i + j)) ∨
        dictHasKey e k = true) := by
  induction l generalizing e i with
  | nil => simp [usersLoop]
  | cons u rest ih =>
    rw [usersLoop]
    rw [ih]
    constructor
    · rintro (⟨j, u', hj, hlen, hk⟩ | he')
      · exact Or.inl ⟨j + 1, u', by simpa using hj, hlen,
          by rw [hk]; congr 1; omega⟩
      · by_cases hu : u.length > 50
        · rw [if_pos hu] at he'
          rcases (dictSet_hasKey _ _ _ _).mp he' with heq | he
          · exact Or.inl ⟨0, u, rfl, hu, heq.symm⟩
          · exact Or.inr he
        · rw [if_neg hu] at he'
          exact Or.inr he'
    · rintro (⟨j, u', hj, hlen, hk⟩ | he)
      · cases j with
        | zero =>
          obtain rfl : u = u' := by simpa using hj
          refine Or.inr ?_
          rw [if_pos hlen]
          exact (dictSet_hasKey _ _ _ _).mpr (Or.inl hk.symm)
        | succ j =>
          exact Or.inl ⟨j, u', by simpa using hj, hlen,
            by rw [hk]; congr 1; omega⟩
      · refine Or.inr ?_
        by_cases hu : u.length > 50
        · rw [if_pos hu]
          exact (dictSet_hasKey _ _ _ _).mpr (Or.inr he)
        · rw [if_neg hu]
          exact he

theorem hasKey_checkName (d : RawItem) (e : List (Field × String)) (k : Field) :
    dictHasKey (checkName d e) k = true ↔
      ((k = .name ∧ (d.name = none ∨ ∃ n, d.name = some n ∧ 50 < n.length)) ∨
        dictHasKey e k = true) := by
  cases hn : d.name with
  | none =>
    simp [checkName, hn, dictSet_hasKey]
    exact or_congr eq_comm Iff.rfl
  | some n =>
    by_cases hl : n.length > 50
    · simp [checkName, hn, hl, dictSet_hasKey]
      exact or_congr eq_comm Iff.rfl
    · simp [checkName, hn, hl]

theorem hasKey_checkPostcode (d : RawItem) (e : List (Field × String))
    (k : Field) :
    dictHasKey (checkPostcode d e) k = true ↔
      ((k = .postcode ∧ (d.postcode = none ∨
          ∃ p, d.postcode = some p ∧ validate_postcode p = false)) ∨
        dictHasKey e k = true) := by
  cases hp : d.postcode with
  | none =>
    simp [checkPostcode, hp, dictSet_hasKey]
    exact or_congr eq_comm Iff.rfl
  | some p =>
    cases hv : validate_postcode p
    · simp [checkPostcode, hp, hv, dictSet_hasKey]
      exact or_congr eq_comm Iff.rfl
    · simp [checkPostcode, hp, hv]

theorem hasKey_checkUsers (d : RawItem) (e : List (Field × String)) (k : Field) :
    dictHasKey (checkUsers d e) k = true ↔
      (((k = .users ∧ (d.users = none ∨ d.users = some .notList)) ∨
        (∃ l, d.users = some (.items l) ∧
          ∃ j u, l.get? j = some u ∧ 50 < u.length ∧ k = .usersElem j)) ∨
        dictHasKey e k = true) := by
  cases hu : d.users with
  | none =>
    simp [checkUsers, hu, dictSet_hasKey]
    exact or_congr eq_comm Iff.rfl
  | some uv =>
    cases uv with
    | notList =>
      simp [checkUsers, hu, dictSet_hasKey]
      exact or_congr eq_comm Iff.rfl
    | items l =>
      rw [checkUsers]
      simp only [hu]
      rw [usersLoop_hasKey]
      simp

theorem hasKey_checkStartDate (now : Int) (d : RawItem)
    (e : List (Field × String)) (k : Field) :
    dictHasKey (checkStartDate now d e) k = true ↔
      ((k = .start_date ∧ (d.start_date = none ∨
          ∃ sd, d.start_date = some sd ∧ validate_start_date now sd = false)) ∨
        dictHasKey e k = true) := by
  cases hs : d.start_date with
  | none =>
    simp [checkStartDate, hs, dictSet_hasKey]
    exact or_congr eq_comm Iff.rfl
  | some sd =>
    cases hv : validate_start_date now sd
    · simp [checkStartDate, hs, hv, dictSet_hasKey]
      exact or_congr eq_comm Iff.rfl
    · simp [checkStartDate, hs, hv]

theorem hasKey_checkNameInUsers (d : RawItem) (e : List (Field × String))
    (k : Field) :
    dictHasKey (checkNameInUsers d e) k = true ↔
      ((k = .name ∧ ∃ n l, d.name = some n ∧ d.users = some (.items l) ∧
          validate_name_in_users n l = false) ∨
        dictHasKey e k = true) := by
  cases hn : d.name with
  | none => simp [checkNameInUsers, hn]
  | some n =>
    cases hu : d.users with
    | none => simp [checkNameInUsers, hn, hu]
    | some uv =>
      cases uv with
      | notList => simp [checkNameInUsers, hn, hu]
      | items l =>
        cases hv : validate_name_in_users n l
        · simp [checkNameInUsers, hn, hu, hv, dictSet_hasKey]
          exact or_congr eq_comm Iff.rfl
        · simp [checkNameInUsers, hn, hu, hv]

theorem hasKey_checkTitle (d : RawItem) (e : List (Field × String)) (k : Field) :
    dictHasKey (checkTitle d e) k = true ↔
      ((k = .title ∧ ∃ t, d.title = some (some t) ∧ 100 < t.length) ∨
        dictHasKey e k = true) := by
  cases ht : d.title with
  | none => simp [checkTitle, ht]
  | some tv =>
    cases tv with
    | none => simp [checkTitle, ht]
    | some t =>
      by_cases hl : t.length > 100
      · simp [checkTitle, ht, hl, dictSet_hasKey]
        exact or_congr eq_comm Iff.rfl
      · simp [checkTitle, ht, hl]

/-- C5: `validate_item_data` evaluates every check; a field is a key of
the returned error mapping exactly when its check is violated (per-user
elements keyed by their index), and `ok` is true exactly when the error
mapping is empty. -/
theorem claim_C5 (now : Int) (d : RawItem) :
    ((validate_item_data now d).1 = true ↔ (validate_item_data now d).2 = []) ∧
    (dictHasKey (validate_item_data now d).2 .name = true ↔
      ((∃ n l, d.name = some n ∧ d.users = some (.items l) ∧ n ∉ l) ∨
        d.name = none ∨ ∃ n, d.name = some n ∧ 50 < n.length)) ∧
    (dictHasKey (validate_item_data now d).2 .postcode = true ↔
      (d.postcode = none ∨ ∃ p, d.postcode = some p ∧ validate_postcode p = false)) ∧
    (dictHasKey (validate_item_data now d).2 .users = true ↔
      (d.users = none ∨ d.users = some .notList)) ∧
    (∀ i, dictHasKey (validate_item_data now d).2 (.usersElem i) = true ↔
      ∃ l u, d.users = some (.items l) ∧ l.get? i = some u ∧ 50 < u.length) ∧
    (dictHasKey (validate_item_data now d).2 .start_date = true ↔
      (d.start_date = none ∨ ∃ sd, d.start_date = some sd ∧ sd < now + 604800)) ∧
    (dictHasKey (validate_item_data now d).2 .title = true ↔
      ∃ t, d.title = some (some t) ∧ 100 < t.length) := by
  have master : ∀ k, dictHasKey (validate_item_data now d).2 k = true ↔
      ((k = .title ∧ ∃ t, d.title = some (some t) ∧ 100 < t.length) ∨
        (k = .name ∧ ∃ n l, d.name = some n ∧ d.users = some (.items l) ∧
          validate_name_in_users n l = false) ∨
        (k = .start_date ∧ (d.start_date = none ∨
          ∃ sd, d.start_date = some sd ∧ validate_start_date now sd = false)) ∨
        ((k = .users ∧ (d.users = none ∨ d.users = some .notList)) ∨
          (∃ l, d.users = some (.items l) ∧
            ∃ j u, l.get? j = some u ∧ 50 < u.length ∧ k = .usersElem j)) ∨
        (k = .postcode ∧ (d.postcode = none ∨
          ∃ p, d.postcode = some p ∧ validate_postcode p = false)) ∨
        (k = .name ∧ (d.name = none ∨ ∃ n, d.name = some n ∧ 50 < n.length))) := by
    intro k
    show dictHasKey (checkTitle d (checkNameInUsers d (checkStartDate now d
      (checkUsers d (checkPostcode d (checkName d [])))))) k = true ↔ _
    rw [hasKey_checkTitle, hasKey_checkNameInUsers, hasKey_checkStartDate,
      hasKey_checkUsers, hasKey_checkPostcode, hasKey_checkName]
    simp [dictHasKey]
  refine ⟨?_, ?_, ?_, ?_, ?_, ?_, ?_⟩
  · have h : (validate_item_data now d).1 = (validate_item_data now d).2.isEmpty := rfl
    rw [h, List.isEmpty_iff]
  · rw [master .name]
    simp [validate_name_in_users]
  · rw [master .postcode]
    simp
  · rw [master .users]
    simp
  · intro i
    rw [master (.usersElem i)]
    simp
    constructor
    · rintro ⟨l, hl, j, u, hj, hlen, rfl⟩
      exact ⟨l, hl, u, hj, hlen⟩
    · rintro ⟨l, hl, u, hu, hlen⟩
      exact ⟨l, hl, i, u, hu, hlen, rfl⟩
  · rw [master .start_date]
    simp [validate_start_date, not_le]
  · rw [master .title]
    simp

/-! ## C7: which parts of the structure the converters rewrite

The converters only map over a list value when its *first* element is a
dict, so a mapping sitting behind a non-dict first element is copied
verbatim, keys and all.  Dict entries are written back with Python dict
assignment, so two keys that rewrite to the same key collapse to one
entry holding the later value. -/

/-- C7 counterexample: in `{"aB": [1, {"cD": 2}]}` the inner mapping is
reachable through the list, but its key `cD` is not rewritten (it would
become `c_d`). -/
theorem counterexample_C7 :
    convert_keys_to_snake_case
        (.vdict [("aB", .vlist [.vint 1, .vdict [("cD", .vint 2)]])]) =
      some (.vdict [("a_b", .vlist [.vint 1, .vdict [("cD", .vint 2)]])]) ∧
    snakeKey "cD" = "c_d" ∧ ("cD" : String) ≠ "c_d" := by
  refine ⟨?_, rfl, by decide⟩
  have h1 : snakeKey "aB" = "a_b" := rfl
  simp [convert_keys_to_snake_case, convertTop, convertEntries, convertVal,
    dictSetStr, Value.falsy, h1]

/-- C7 (amended): the converters rewrite every key of a mapping and of
mappings nested as dict values, storing the results with dict-assignment
semantics: when all rewritten keys are pairwise distinct every entry
survives in order with its converted value, while two entries whose keys
rewrite to the same key collapse into a single entry holding the later
value.  A sequence is processed only when its first element is a
mapping, in which case the function is applied to every element and the
sequence's length and order are preserved; any other sequence and every
non-mapping leaf is returned untouched. -/
theorem claim_C7 (f : String → String) :
    (∀ es es', (es.map (fun kv => f kv.1)).Nodup →
      convertEntries f [] es = some es' →
      List.Forall₂ (fun kv kv' => kv'.1 = f kv.1 ∧ convertVal f kv.2 = some kv'.2)
        es es' ∧ es'.length = es.length) ∧
    (∀ k1 k2 v1 v2 v1' v2', f k1 = f k2 →
      convertVal f v1 = some v1' → convertVal f v2 = some v2' →
      convertEntries f [] [(k1, v1), (k2, v2)] = some [(f k2, v2')]) ∧
    (∀ es, convertVal f (.vdict es) = (convertEntries f [] es).map .vdict) ∧
    (∀ xs, (∀ es, xs.head? ≠ some (.vdict es)) →
      convertVal f (.vlist xs) = some (.vlist xs)) ∧
    (∀ es xs ys, convertList f (.vdict es :: xs) = some ys →
      convertVal f (.vlist (.vdict es :: xs)) = some (.vlist ys) ∧
      List.Forall₂ (fun x y => convertTop f x = some y) (.vdict es :: xs) ys ∧
      ys.length = (Value.vdict es :: xs).length) ∧
    (∀ s, convertVal f (.vstr s) = some (.vstr s)) ∧
    (∀ n, convertVal f (.vint n) = some (.vint n)) ∧
    (∀ b, convertVal f (.vbool b) = some (.vbool b)) ∧
    convertVal f .vnone = some .vnone := by
  have hlist : ∀ xs ys, convertList f xs = some ys →
      List.Forall₂ (fun x y => convertTop f x = some y) xs ys := by
    intro xs
    induction xs with
    | nil =>
      intro ys h
      rw [convertList] at h
      injection h with h
      subst h
      exact List.Forall₂.nil
    | cons x rest ih =>
      intro ys h
      rw [convertList] at h
      cases hx : convertTop f x with
      | none => rw [hx] at h; simp at h
      | some y =>
        cases hr : convertList f rest with
        | none => rw [hx, hr] at h; simp at h
        | some ys' =>
          rw [hx, hr] at h
          simp only [Option.bind_eq_bind, Option.some_bind] at h
          injection h with h
          subst h
          exact List.Forall₂.cons hx (ih ys' hr)
  refine ⟨?_, ?_, ?_, ?_, ?_, fun s => by simp [convertVal],
    fun n => by simp [convertVal], fun b => by simp [convertVal],
    by simp [convertVal]⟩
  · intro es es' hnd h
    rw [convertEntries_nil_eq_ND f es hnd] at h
    have hf := convertEntriesND_forall2 f es es' h
    exact ⟨hf, hf.length_eq.symm⟩
  · intro k1 k2 v1 v2 v1' v2' hcol h1 h2
    simp only [convertEntries, h1, h2, Option.bind_eq_bind, Option.some_bind]
    simp [dictSetStr, hcol]
  · intro es
    simp [convertVal]
  · intro xs hxs
    cases xs with
    | nil => simp [convertVal]
    | cons x rest =>
      cases x with
      | vdict es => exact absurd rfl (hxs es)
      | vstr s => simp [convertVal]
      | vint n => simp [convertVal]
      | vbool b => simp [convertVal]
      | vnone => simp [convertVal]
      | vlist l => simp [convertVal]
  · intro es xs ys h
    refine ⟨?_, hlist _ _ h, ((hlist _ _ h).length_eq).symm⟩
    simp [convertVal, h]

/-- C7 witness: the amended theorem applied to the snake-case converter —
the collision-free case keeps both entries of `{"aB": 1}`-style input,
the colliding input `{"aB": 1, "a_b": 2}` collapses to `{"a_b": 2}`, and
a list with a non-dict first element is untouched. -/
theorem claim_C7_witness :
    List.Forall₂
      (fun kv kv' => kv'.1 = snakeKey kv.1 ∧
        convertVal snakeKey kv.2 = some kv'.2)
      [("aB", Value.vint 1)] [("a_b", Value.vint 1)] ∧
    convertEntries snakeKey [] [("aB", Value.vint 1), ("a_b", Value.vint 2)] =
      some [("a_b", Value.vint 2)] ∧
    convertVal snakeKey (.vlist [.vint 1, .vdict [("cD", .vint 2)]]) =
      some (.vlist [.vint 1, .vdict [("cD", .vint 2)]]) := by
  have h := claim_C7 snakeKey
  have hnd : (([("aB", Value.vint 1)]).map (fun kv => snakeKey kv.1)).Nodup := by
    simp
  have he : convertEntries snakeKey [] [("aB", Value.vint 1)] =
      some [("a_b", Value.vint 1)] := by
    have h1 : snakeKey "aB" = "a_b" := rfl
    simp [convertEntries, convertVal, dictSetStr, h1]
  refine ⟨(h.1 [("aB", Value.vint 1)] [("a_b", Value.vint 1)] hnd he).1, ?_,
    h.2.2.2.1 [Value.vint 1, Value.vdict [("cD", Value.vint 2)]]
      (fun es hes => by simp at hes)⟩
  have hcol : snakeKey "aB" = snakeKey "a_b" := rfl
  exact h.2.1 "aB" "a_b" (Value.vint 1) (Value.vint 2) (Value.vint 1)
    (Value.vint 2) hcol (by simp [convertVal]) (by simp [convertVal])

/-! ## C6: round-tripping of the two key-casing transforms

Key-level analysis.  `decomp cs` is the list of components that
splitting the snake-cased form of `cs` on underscores produces (with
uppercase characters lowered), and `recombine` is what
`convert_keys_to_camel_case` does with a component list. -/

/-- An unambiguous lowercase key character: an ASCII lowercase letter
(each conjunct is a fact the round-trip proofs use, decidable per
character). -/
def lowletter (c : Char) : Bool :=
  c.isAlpha && !c.isUpper && (c.toLower == c) && !(c == '_') &&
    (c.toUpper).isUpper && ((c.toUpper).toLower == c)

/-- An unambiguous uppercase key character: an ASCII capital letter. -/
def upperish (c : Char) : Bool :=
  c.isUpper && (c.toLower).isAlpha && !((c.toLower) == '_') &&
    ((c.toLower).toUpper == c)

/-- An unambiguous camelCase key: nonempty, starts with a lowercase
letter, all characters letters. -/
def niceCamel (cs : List Char) : Bool :=
  match cs with
  | [] => false
  | c :: _ => lowletter c && cs.all (fun x => lowletter x || upperish x)

/-- Prepend a character to the first component. -/
def consHead (x : Char) : List (List Char) → List (List Char)
  | [] => [[x]]
  | w :: ws => (x :: w) :: ws

/-- The component decomposition the snake transform induces on a key:
a new component opens at each uppercase character (lowered). -/
def decomp : List Char → List (List Char)
  | [] => [[]]
  | c :: cs => if c.isUpper then [] :: consHead c.toLower (decomp cs) else consHead c (decomp cs)

/-- What the camel transform does with a component list. -/
def recombine : List (List Char) → List Char
  | [] => []
  | w :: ws => w ++ ws.flatMap pyTitle

theorem decomp_ne_nil (cs : List Char) : ∃ w ws, decomp cs = w :: ws := by
  induction cs with
  | nil => exact ⟨[], [], rfl⟩
  | cons c rest ih =>
    obtain ⟨w, ws, hw⟩ := ih
    by_cases hc : c.isUpper
    · exact ⟨[], consHead c.toLower (decomp rest), by simp [decomp, hc]⟩
    · exact ⟨c :: w, ws, by simp [decomp, hc, hw, consHead]⟩

theorem splitUnd_cons_ne (c : Char) (t : List Char) (h : (c == '_') = false) :
    splitUnd (c :: t) = consHead c (splitUnd t) := by
  rw [splitUnd, if_neg (by simp_all)]
  cases splitUnd t <;> rfl

theorem camelChars_recombine (l : List Char) :
    camelChars l = recombine (splitUnd l) := by
  cases h : splitUnd l <;> simp [camelChars, recombine, h]

theorem flat_nice (cs : List Char)
    (h : cs.all (fun x => lowletter x || upperish x) = true) :
    splitUnd (cs.flatMap snakeStep) = decomp cs := by
  induction cs with
  | nil => rfl
  | cons c rest ih =>
    rw [List.all_cons, Bool.and_eq_true] at h
    obtain ⟨hc, hrest⟩ := h
    rcases Bool.or_eq_true _ _ |>.mp hc with hl | hu
    · simp only [lowletter, Bool.and_eq_true] at hl
      obtain ⟨⟨⟨⟨⟨_, hcU⟩, _⟩, hcNe⟩, _⟩, _⟩ := hl
      rw [Bool.not_eq_true'] at hcU
      have hstep : snakeStep c = [c] := by simp [snakeStep, hcU]
      rw [List.flatMap_cons, hstep]
      show splitUnd (c :: rest.flatMap snakeStep) = _
      rw [splitUnd_cons_ne c _ (by simpa using hcNe), ih hrest]
      simp [decomp, hcU]
    · simp only [upperish, Bool.and_eq_true] at hu
      obtain ⟨⟨⟨hcU, _⟩, hlNe⟩, _⟩ := hu
      have hstep : snakeStep c = ['_', c.toLower] := by simp [snakeStep, hcU]
      rw [List.flatMap_cons, hstep]
      show splitUnd ('_' :: c.toLower :: rest.flatMap snakeStep) = _
      rw [splitUnd, if_pos (by simp)]
      rw [splitUnd_cons_ne _ _ (by simpa using hlNe), ih hrest]
      simp [decomp, hcU]

theorem pyRecombine (cs : List Char)
    (hall : cs.all (fun x => lowletter x || upperish x) = true)
    (y : Char) (hy : y.isAlpha = true) :
    (consHead y (decomp cs)).flatMap pyTitle = y.toUpper :: cs := by
  induction cs generalizing y with
  | nil => simp [decomp, consHead, pyTitle, pyTitleGo, hy]
  | cons c rest ih =>
    rw [List.all_cons, Bool.and_eq_true] at hall
    obtain ⟨hc, hrest⟩ := hall
    rcases Bool.or_eq_true _ _ |>.mp hc with hl | hu
    · simp only [lowletter, Bool.and_eq_true] at hl
      obtain ⟨⟨⟨⟨⟨hcA, hcU⟩, hcL⟩, _⟩, _⟩, _⟩ := hl
      rw [Bool.not_eq_true'] at hcU
      rw [beq_iff_eq] at hcL
      obtain ⟨w, ws, hd⟩ := decomp_ne_nil rest
      have hstep1 : pyTitle (y :: c :: w) = y.toUpper :: c :: pyTitleGo true w := by
        show pyTitleGo false (y :: c :: w) = _
        rw [pyTitleGo, pyTitleGo]
        simp [hy, hcA, hcL]
      have hstep2 : pyTitle (c :: w) = c.toUpper :: pyTitleGo true w := by
        show pyTitleGo false (c :: w) = _
        rw [pyTitleGo]
        simp [hcA]
      have hih := ih hrest c hcA
      rw [hd] at hih
      have htail : pyTitleGo true w ++ ws.flatMap pyTitle = rest := by
        have : (c.toUpper :: pyTitleGo true w) ++ ws.flatMap pyTitle = c.toUpper :: rest := by
          rw [← hstep2]
          simpa [consHead] using hih
        simpa using this
      show (consHead y (decomp (c :: rest))).flatMap pyTitle = _
      rw [decomp, if_neg (by simp [hcU]), hd]
      show (consHead y (consHead c (w :: ws))).flatMap pyTitle = _
      simp only [consHead, List.flatMap_cons, hstep1]
      simp [htail]
    · simp only [upperish, Bool.and_eq_true] at hu
      obtain ⟨⟨⟨hcU, hlA⟩, hlNe⟩, hLU⟩ := hu
      rw [beq_iff_eq] at hLU
      have hih := ih hrest c.toLower hlA
      show (consHead y (decomp (c :: rest))).flatMap pyTitle = _
      rw [decomp, if_pos hcU]
      obtain ⟨w, ws, hd⟩ := decomp_ne_nil rest
      rw [hd]
      show (consHead y ([] :: consHead c.toLower (w :: ws))).flatMap pyTitle = _
      simp only [consHead, List.flatMap_cons]
      have hy1 : pyTitle [y] = [y.toUpper] := by
        show pyTitleGo false [y] = _
        rw [pyTitleGo]
        simp [hy, pyTitleGo]
      rw [hy1]
      rw [hd] at hih
      simp only [consHead, List.flatMap_cons] at hih
      simp [hih, hLU, pyTitleGo]

theorem recombine_decomp (cs : List Char)
    (hall : cs.all (fun x => lowletter x || upperish x) = true) :
    recombine (decomp cs) = cs := by
  induction cs with
  | nil => simp [decomp, recombine]
  | cons c rest ih =>
    rw [List.all_cons, Bool.and_eq_true] at hall
    obtain ⟨hc, hrest⟩ := hall
    rcases Bool.or_eq_true _ _ |>.mp hc with hl | hu
    · simp only [lowletter, Bool.and_eq_true] at hl
      obtain ⟨⟨⟨⟨⟨hcA, hcU⟩, hcL⟩, _⟩, _⟩, _⟩ := hl
      rw [Bool.not_eq_true'] at hcU
      obtain ⟨w, ws, hd⟩ := decomp_ne_nil rest
      rw [decomp, if_neg (by simp [hcU]), hd]
      show recombine ((c :: w) :: ws) = _
      have : recombine (w :: ws) = rest := by rw [← hd]; exact ih hrest
      simp only [recombine] at this ⊢
      simp [this]
    · simp only [upperish, Bool.and_eq_true] at hu
      obtain ⟨⟨⟨hcU, hlA⟩, hlNe⟩, hLU⟩ := hu
      rw [beq_iff_eq] at hLU
      rw [decomp, if_pos hcU]
      show recombine ([] :: consHead c.toLower (decomp rest)) = _
      simp only [recombine, List.nil_append]
      rw [pyRecombine rest hrest c.toLower hlA, hLU]

theorem camel_snake_key (cs : List Char) (h : niceCamel cs = true) :
    camelChars (snakeChars cs) = cs := by
  cases cs with
  | nil => simp [niceCamel] at h
  | cons c rest =>
    rw [niceCamel, Bool.and_eq_true] at h
    obtain ⟨hlow, hall⟩ := h
    have hcU : c.isUpper = false := by
      simp only [lowletter, Bool.and_eq_true] at hlow
      rw [← Bool.not_eq_true']
      exact hlow.1.1.1.1.2
    have hcNe : (c == '_') = false := by
      simp only [lowletter, Bool.and_eq_true] at hlow
      simpa using hlow.1.1.2
    have hflat : (c :: rest).flatMap snakeStep = c :: rest.flatMap snakeStep := by
      simp [List.flatMap_cons, snakeStep, hcU]
    have hsnake : snakeChars (c :: rest) = (c :: rest).flatMap snakeStep := by
      rw [snakeChars, hflat, List.dropWhile_cons]
      simp [hcNe]
    rw [hsnake, camelChars_recombine, flat_nice _ hall, recombine_decomp _ hall]

theorem camel_snake_str (s : String) (h : niceCamel s.data = true) :
    camelKey (snakeKey s) = s := by
  show String.mk (camelChars (String.mk (snakeChars s.data)).data) = s
  show String.mk (camelChars (snakeChars s.data)) = s
  rw [camel_snake_key s.data h]

/-- An unambiguous snake_case key: every underscore-separated component
is a nonempty all-lowercase-letter word. -/
def niceSnakeKey (cs : List Char) : Bool :=
  (splitUnd cs).all (fun w => !w.isEmpty && w.all lowletter)

/-- Rejoin underscore-separated components. -/
def recombineU : List (List Char) → List Char
  | [] => []
  | w :: ws => w ++ ws.flatMap (fun w => '_' :: w)

theorem splitUnd_ne_nil (cs : List Char) : ∃ w ws, splitUnd cs = w :: ws := by
  induction cs with
  | nil => exact ⟨[], [], rfl⟩
  | cons c rest ih =>
    obtain ⟨w, ws, hw⟩ := ih
    by_cases hc : (c == '_') = true
    · exact ⟨[], splitUnd rest, by rw [splitUnd, if_pos hc]⟩
    · refine ⟨c :: w, ws, ?_⟩
      rw [splitUnd_cons_ne c rest (by simpa using hc), hw]
      rfl

theorem splitUnd_join (cs : List Char) : recombineU (splitUnd cs) = cs := by
  induction cs with
  | nil => rfl
  | cons c rest ih =>
    obtain ⟨w, ws, hw⟩ := splitUnd_ne_nil rest
    by_cases hc : (c == '_') = true
    · rw [splitUnd, if_pos hc, hw]
      rw [hw] at ih
      simp only [recombineU, List.flatMap_cons, List.nil_append] at ih ⊢
      rw [beq_iff_eq] at hc
      subst hc
      simp [ih]
    · rw [splitUnd_cons_ne c rest (by simpa using hc), hw]
      rw [hw] at ih
      simp only [consHead, recombineU] at ih ⊢
      simp [ih]

theorem pyTitleGo_true_id (w : List Char) (h : w.all lowletter = true) :
    pyTitleGo true w = w := by
  induction w with
  | nil => rfl
  | cons c rest ih =>
    rw [List.all_cons, Bool.and_eq_true] at h
    obtain ⟨hc, hrest⟩ := h
    simp only [lowletter, Bool.and_eq_true] at hc
    obtain ⟨⟨⟨⟨⟨hcA, _⟩, hcL⟩, _⟩, _⟩, _⟩ := hc
    rw [beq_iff_eq] at hcL
    rw [pyTitleGo]
    simp [hcA, hcL, ih hrest]

theorem flat_snakeStep_id (w : List Char) (h : w.all lowletter = true) :
    w.flatMap snakeStep = w := by
  induction w with
  | nil => rfl
  | cons c rest ih =>
    rw [List.all_cons, Bool.and_eq_true] at h
    obtain ⟨hc, hrest⟩ := h
    simp only [lowletter, Bool.and_eq_true] at hc
    have hcU : c.isUpper = false := by
      rw [← Bool.not_eq_true']
      exact hc.1.1.1.1.2
    simp [List.flatMap_cons, snakeStep, hcU, ih hrest]

theorem flat_pyTitle_snake (ws : List (List Char))
    (h : ws.all (fun w => !w.isEmpty && w.all lowletter) = true) :
    (ws.flatMap pyTitle).flatMap snakeStep = ws.flatMap (fun w => '_' :: w) := by
  induction ws with
  | nil => rfl
  | cons w rest ihw =>
    rw [List.all_cons, Bool.and_eq_true] at h
    obtain ⟨hw, hrest⟩ := h
    rw [Bool.and_eq_true] at hw
    obtain ⟨hwne, hwlow⟩ := hw
    cases w with
    | nil => simp at hwne
    | cons h0 w1 =>
      rw [List.all_cons, Bool.and_eq_true] at hwlow
      obtain ⟨hh0, hw1low⟩ := hwlow
      simp only [lowletter, Bool.and_eq_true] at hh0
      obtain ⟨⟨⟨⟨⟨hA, _⟩, _⟩, _⟩, hUU⟩, hUL⟩ := hh0
      rw [beq_iff_eq] at hUL
      have hpt : pyTitle (h0 :: w1) = h0.toUpper :: w1 := by
        show pyTitleGo false (h0 :: w1) = _
        rw [pyTitleGo]
        simp [hA, pyTitleGo_true_id w1 hw1low]
      have hfs : (h0.toUpper :: w1).flatMap snakeStep = '_' :: h0 :: w1 := by
        simp [List.flatMap_cons, snakeStep, hUU, hUL,
          flat_snakeStep_id w1 hw1low]
      simp only [List.flatMap_cons, List.flatMap_append, hpt, hfs, ihw hrest]

theorem snake_camel_key (cs : List Char) (h : niceSnakeKey cs = true) :
    snakeChars (camelChars cs) = cs := by
  obtain ⟨w0, ws, hs⟩ := splitUnd_ne_nil cs
  rw [niceSnakeKey, hs, List.all_cons, Bool.and_eq_true] at h
  obtain ⟨hw0, hws⟩ := h
  rw [Bool.and_eq_true] at hw0
  obtain ⟨hw0ne, hw0low⟩ := hw0
  have hcam : camelChars cs = w0 ++ ws.flatMap pyTitle := by
    rw [camelChars_recombine, hs]
    rfl
  have hw0flat : w0.flatMap snakeStep = w0 := flat_snakeStep_id w0 hw0low
  have hj := splitUnd_join cs
  rw [hs] at hj
  cases w0 with
  | nil => simp at hw0ne
  | cons c0 w1 =>
    rw [List.all_cons, Bool.and_eq_true] at hw0low
    have hc0 : (c0 == '_') = false := by
      have := hw0low.1
      simp only [lowletter, Bool.and_eq_true] at this
      simpa using this.1.1.2
    rw [hcam, snakeChars, List.flatMap_append, hw0flat,
      flat_pyTitle_snake ws hws]
    rw [List.cons_append, List.dropWhile_cons]
    simp only [hc0, Bool.false_eq_true, if_false]
    simpa [recombineU] using hj

theorem snake_camel_str (s : String) (h : niceSnakeKey s.data = true) :
    snakeKey (camelKey s) = s := by
  show String.mk (snakeChars (String.mk (camelChars s.data)).data) = s
  show String.mk (snakeChars (camelChars s.data)) = s
  rw [snake_camel_key s.data h]

mutual

/-- Every key reachable in a value satisfies `keyOk`, and every list
whose first element is a dict consists purely of dicts. -/
def niceVal (keyOk : String → Bool) (v : Value) : Bool :=
  match v with
  | .vdict es => niceEntries keyOk es
  | .vlist xs =>
    match xs with
    | .vdict es :: rest => niceDictList keyOk (.vdict es :: rest)
    | _ => true
  | _ => true
termination_by sizeOf v

def niceDictList (keyOk : String → Bool) (xs : List Value) : Bool :=
  match xs with
  | [] => true
  | .vdict es :: rest => niceEntries keyOk es && niceDictList keyOk rest
  | .vstr _ :: _ => false
  | .vint _ :: _ => false
  | .vbool _ :: _ => false
  | .vnone :: _ => false
  | .vlist _ :: _ => false
termination_by sizeOf xs

/-- Entry lists standing for Python dicts: a dict holds at most one
entry per key, so a faithful entry list has pairwise-distinct keys, and
every key satisfies `keyOk`. -/
def niceEntries (keyOk : String → Bool) (es : List (String × Value)) : Bool :=
  match es with
  | [] => true
  | (k, v) :: rest =>
    keyOk k && !hasKeyStr rest k && niceVal keyOk v && niceEntries keyOk rest
termination_by sizeOf es

end

theorem niceEntries_keyOk (keyOk : String → Bool)
    (es : List (String × Value)) (h : niceEntries keyOk es = true) :
    ∀ kv ∈ es, keyOk kv.1 = true := by
  induction es with
  | nil => intro kv hkv; simp at hkv
  | cons kv0 rest ih =>
    obtain ⟨k, v⟩ := kv0
    rw [niceEntries, Bool.and_eq_true, Bool.and_eq_true, Bool.and_eq_true] at h
    obtain ⟨⟨⟨hkk, _⟩, _⟩, hrest⟩ := h
    intro kv hkv
    rcases List.mem_cons.mp hkv with rfl | hmem
    · exact hkk
    · exact ih hrest kv hmem

theorem niceEntries_keys_nodup (keyOk : String → Bool)
    (es : List (String × Value)) (h : niceEntries keyOk es = true) :
    (es.map Prod.fst).Nodup := by
  induction es with
  | nil => simp
  | cons kv0 rest ih =>
    obtain ⟨k, v⟩ := kv0
    rw [niceEntries, Bool.and_eq_true, Bool.and_eq_true, Bool.and_eq_true] at h
    obtain ⟨⟨⟨_, hnk⟩, _⟩, hrest⟩ := h
    rw [List.map_cons, List.nodup_cons]
    refine ⟨?_, ih hrest⟩
    intro hmem
    obtain ⟨kv, hkv, heq⟩ := List.mem_map.mp hmem
    rw [Bool.not_eq_true'] at hnk
    exact (hasKeyStr_false_iff rest k).mp hnk kv hkv heq

theorem niceEntries_mapped_nodup (f g : String → String)
    (keyOk : String → Bool) (hk : ∀ k, keyOk k = true → g (f k) = k)
    (es : List (String × Value)) (h : niceEntries keyOk es = true) :
    (es.map (fun kv => f kv.1)).Nodup := by
  induction es with
  | nil => simp
  | cons kv0 rest ih =>
    obtain ⟨k, v⟩ := kv0
    have hall := niceEntries_keyOk keyOk ((k, v) :: rest) h
    rw [niceEntries, Bool.and_eq_true, Bool.and_eq_true, Bool.and_eq_true] at h
    obtain ⟨⟨⟨hkk, hnk⟩, _⟩, hrest⟩ := h
    rw [List.map_cons, List.nodup_cons]
    refine ⟨?_, ih hrest⟩
    intro hmem
    obtain ⟨kv, hkv, heq⟩ := List.mem_map.mp hmem
    have hkv1 : kv.1 = k := by
      have h1 : keyOk kv.1 = true := hall kv (List.mem_cons_of_mem _ hkv)
      calc kv.1 = g (f kv.1) := (hk kv.1 h1).symm
        _ = g (f (k, v).1) := by rw [heq]
        _ = k := hk k hkk
    rw [Bool.not_eq_true'] at hnk
    exact (hasKeyStr_false_iff rest k).mp hnk kv hkv hkv1

/-- Keys mapped back through `g` recover the original key list. -/
theorem mapped_keys_back (f g : String → String) (keyOk : String → Bool)
    (hk : ∀ k, keyOk k = true → g (f k) = k) (es es2 : List (String × Value))
    (h : niceEntries keyOk es = true)
    (hkeys : es2.map Prod.fst = es.map (fun kv => f kv.1)) :
    es2.map (fun kv => g kv.1) = es.map Prod.fst := by
  have h1 : es2.map (fun kv => g kv.1) = (es2.map Prod.fst).map g := by
    rw [List.map_map]
    rfl
  rw [h1, hkeys, List.map_map]
  apply List.map_congr_left
  intro kv hkv
  exact hk kv.1 (niceEntries_keyOk keyOk es h kv hkv)

theorem convertTop_dict_shape (f : String → String)
    (es : List (String × Value)) (y : Value)
    (h : convertTop f (.vdict es) = some y) : ∃ es2, y = .vdict es2 := by
  rw [convertTop] at h
  by_cases hf : (Value.vdict es).falsy
  · rw [if_pos hf] at h
    injection h with h
    exact ⟨[], h.symm⟩
  · rw [if_neg hf] at h
    cases he : convertEntries f [] es with
    | none => rw [he] at h; simp at h
    | some es2 =>
      rw [he] at h
      injection h with h
      exact ⟨es2, h.symm⟩

/-- On a dict argument `convert_keys_to_*_case` and the per-value
conversion agree: the falsy case and the empty-entry case both give `{}`. -/
theorem convertTop_dict_eq_convertVal (f : String → String)
    (es : List (String × Value)) :
    convertTop f (.vdict es) = convertVal f (.vdict es) := by
  cases es with
  | nil => simp [convertTop, convertVal, convertEntries, Value.falsy]
  | cons kv rest => simp [convertTop, convertVal, Value.falsy]

mutual

theorem roundE_ND (f g : String → String) (keyOk : String → Bool)
    (hk : ∀ k, keyOk k = true → g (f k) = k) (es : List (String × Value))
    (h : niceEntries keyOk es = true) :
    (convertEntriesND f es).bind (convertEntriesND g) = some es := by
  match es with
  | [] => simp [convertEntriesND]
  | (k, v) :: rest =>
    rw [niceEntries, Bool.and_eq_true, Bool.and_eq_true, Bool.and_eq_true] at h
    obtain ⟨⟨⟨hkk, _⟩, hv⟩, hrest⟩ := h
    obtain ⟨v2, hv1, hv2⟩ := Option.bind_eq_some.mp (roundV f g keyOk hk v hv)
    obtain ⟨rest2, hr1, hr2⟩ :=
      Option.bind_eq_some.mp (roundE_ND f g keyOk hk rest hrest)
    rw [convertEntriesND.eq_def]
    simp only [hv1, hr1, Option.bind_eq_bind, Option.pure_def, Option.some_bind]
    rw [convertEntriesND.eq_def]
    simp only [hv2, hr2, Option.bind_eq_bind, Option.some_bind]
    rw [hk k hkk]
    rfl
termination_by sizeOf es

theorem roundV (f g : String → String) (keyOk : String → Bool)
    (hk : ∀ k, keyOk k = true → g (f k) = k) (v : Value)
    (h : niceVal keyOk v = true) :
    (convertVal f v).bind (convertVal g) = some v := by
  match v with
  | .vdict es =>
    have hes : niceEntries keyOk es = true := by
      rw [niceVal] at h
      exact h
    have hbrf : convertEntries f [] es = convertEntriesND f es :=
      convertEntries_nil_eq_ND f es (niceEntries_mapped_nodup f g keyOk hk es hes)
    obtain ⟨es2, he1, he2⟩ :=
      Option.bind_eq_some.mp (roundE_ND f g keyOk hk es hes)
    have hndg : (es2.map (fun kv => g kv.1)).Nodup := by
      rw [mapped_keys_back f g keyOk hk es es2 hes
        (convertEntriesND_keys f es es2 he1)]
      exact niceEntries_keys_nodup keyOk es hes
    have hbrg : convertEntries g [] es2 = convertEntriesND g es2 :=
      convertEntries_nil_eq_ND g es2 hndg
    rw [convertVal, hbrf, he1]
    simp only [Option.map_some', Option.bind_eq_bind, Option.some_bind]
    rw [convertVal, hbrg, he2]
    rfl
  | .vlist [] => simp [convertVal]
  | .vlist (.vdict es0 :: rest) =>
    have hdl : niceDictList keyOk (Value.vdict es0 :: rest) = true := by
      rw [niceVal] at h
      exact h
    obtain ⟨ys, hy1, hy2⟩ :=
      Option.bind_eq_some.mp
        (roundL f g keyOk hk (Value.vdict es0 :: rest) hdl)
    have hy1' := hy1
    rw [convertList] at hy1'
    rcases hct : convertTop f (Value.vdict es0) with _ | y0
    · rw [hct] at hy1'; simp at hy1'
    · rcases hcl : convertList f rest with _ | ys0
      · rw [hct, hcl] at hy1'; simp at hy1'
      · rw [hct, hcl] at hy1'
        simp only [Option.bind_eq_bind, Option.some_bind] at hy1'
        injection hy1' with hy1'
        obtain ⟨es0', rfl⟩ := convertTop_dict_shape f es0 y0 hct
        rw [convertVal, hy1]
        simp only [Option.map_some', Option.bind_eq_bind, Option.some_bind]
        rw [← hy1']
        rw [convertVal]
        rw [hy1']
        rw [hy2]
        rfl
  | .vlist (.vstr s :: rest) => simp [convertVal]
  | .vlist (.vint n :: rest) => simp [convertVal]
  | .vlist (.vbool b :: rest) => simp [convertVal]
  | .vlist (.vnone :: rest) => simp [convertVal]
  | .vlist (.vlist l :: rest) => simp [convertVal]
  | .vstr s => simp [convertVal]
  | .vint n => simp [convertVal]
  | .vbool b => simp [convertVal]
  | .vnone => simp [convertVal]
termination_by sizeOf v

theorem roundL (f g : String → String) (keyOk : String → Bool)
    (hk : ∀ k, keyOk k = true → g (f k) = k) (xs : List Value)
    (h : niceDictList keyOk xs = true) :
    (convertList f xs).bind (convertList g) = some xs := by
  match xs with
  | [] => simp [convertList]
  | .vdict es0 :: rest =>
    rw [niceDictList, Bool.and_eq_true] at h
    obtain ⟨hes0, hrest⟩ := h
    have hnv : niceVal keyOk (Value.vdict es0) = true := by
      rw [niceVal]
      exact hes0
    obtain ⟨y, hv1, hv2⟩ :=
      Option.bind_eq_some.mp (roundV f g keyOk hk (Value.vdict es0) hnv)
    have hy : ∃ es2, y = Value.vdict es2 := by
      rw [convertVal] at hv1
      cases he : convertEntries f [] es0 with
      | none => rw [he] at hv1; simp at hv1
      | some es2 =>
        rw [he] at hv1
        injection hv1 with hv1
        exact ⟨es2, hv1.symm⟩
    obtain ⟨es2, rfl⟩ := hy
    have ht1 : convertTop f (Value.vdict es0) = some (Value.vdict es2) := by
      rw [convertTop_dict_eq_convertVal]
      exact hv1
    have ht2 : convertTop g (Value.vdict es2) = some (Value.vdict es0) := by
      rw [convertTop_dict_eq_convertVal]
      exact hv2
    obtain ⟨ys2, hr1, hr2⟩ :=
      Option.bind_eq_some.mp (roundL f g keyOk hk rest hrest)
    rw [convertList.eq_def]
    simp only [ht1, hr1, Option.bind_eq_bind, Option.pure_def, Option.some_bind]
    rw [convertList.eq_def]
    simp only [ht2, hr2, Option.bind_eq_bind, Option.some_bind]
    rfl
  | .vstr s :: rest => simp [niceDictList] at h
  | .vint n :: rest => simp [niceDictList] at h
  | .vbool b :: rest => simp [niceDictList] at h
  | .vnone :: rest => simp [niceDictList] at h
  | .vlist l :: rest => simp [niceDictList] at h
termination_by sizeOf xs

end

theorem roundT (f g : String → String) (keyOk : String → Bool)
    (hk : ∀ k, keyOk k = true → g (f k) = k) (es : List (String × Value))
    (h : niceEntries keyOk es = true) :
    (convertTop f (.vdict es)).bind (convertTop g) = some (.vdict es) := by
  have hval : niceVal keyOk (.vdict es) = true := by
    rw [niceVal]
    exact h
  obtain ⟨y, h1, h2⟩ :=
    Option.bind_eq_some.mp (roundV f g keyOk hk (.vdict es) hval)
  have hy : ∃ es2, y = .vdict es2 := by
    rw [convertVal] at h1
    cases he : convertEntries f [] es with
    | none => rw [he] at h1; simp at h1
    | some es2 =>
      rw [he] at h1
      injection h1 with h1
      exact ⟨es2, h1.symm⟩
  obtain ⟨es2, rfl⟩ := hy
  rw [convertTop_dict_eq_convertVal, h1]
  simp only [Option.bind_eq_bind, Option.some_bind]
  rw [convertTop_dict_eq_convertVal, h2]

/-- C6 counterexample: for the snake_case-keyed mapping
`{"start_date": 0}` (no consecutive capitals, no leading underscore, no
digits in the key), converting to snake_case and back to camelCase
yields `{"startDate": 0}`, not the original mapping. -/
theorem counterexample_C6 :
    (convert_keys_to_snake_case (.vdict [("start_date", .vint 0)]) >>=
        convert_keys_to_camel_case) = some (.vdict [("startDate", .vint 0)]) ∧
    Value.vdict [("startDate", Value.vint 0)] ≠
      Value.vdict [("start_date", Value.vint 0)] := by
  constructor
  · have h1 : snakeKey "start_date" = "start_date" := rfl
    have h2 : camelKey "start_date" = "startDate" := rfl
    simp [convert_keys_to_snake_case, convert_keys_to_camel_case, convertTop,
      convertEntries, convertVal, dictSetStr, Value.falsy, h1, h2]
  · intro h
    injection h with h1
    injection h1 with h2 h3
    injection h2 with h4 h5
    exact absurd h4 (by decide)

/-- C6 (amended): round-tripping is the identity once each composition
is applied to mappings in its own convention: snake-then-camel is the
identity on mappings whose keys (everywhere in the nested structure) are
unambiguous camelCase words, and camel-then-snake is the identity on
mappings whose keys are unambiguous snake_case words. -/
theorem claim_C6 (es : List (String × Value)) :
    (niceEntries (fun s => niceCamel s.data) es = true →
      (convert_keys_to_snake_case (.vdict es) >>= convert_keys_to_camel_case) =
        some (.vdict es)) ∧
    (niceEntries (fun s => niceSnakeKey s.data) es = true →
      (convert_keys_to_camel_case (.vdict es) >>= convert_keys_to_snake_case) =
        some (.vdict es)) := by
  constructor
  · intro h
    have hr := roundT snakeKey camelKey (fun s => niceCamel s.data)
      (fun k hk => camel_snake_str k hk) es h
    simpa [convert_keys_to_snake_case, convert_keys_to_camel_case] using hr
  · intro h
    have hr := roundT camelKey snakeKey (fun s => niceSnakeKey s.data)
      (fun k hk => snake_camel_str k hk) es h
    simpa [convert_keys_to_snake_case, convert_keys_to_camel_case] using hr

/-- C6 witness: the amended round trips at concrete one-key mappings. -/
theorem claim_C6_witness :
    (convert_keys_to_snake_case (.vdict [("startDate", .vint 1)]) >>=
      convert_keys_to_camel_case) = some (.vdict [("startDate", .vint 1)]) ∧
    (convert_keys_to_camel_case (.vdict [("start_date", .vint 1)]) >>=
      convert_keys_to_snake_case) = some (.vdict [("start_date", .vint 1)]) := by
  refine ⟨(claim_C6 _).1 ?_, (claim_C6 _).2 ?_⟩ <;>
    simp [niceEntries, niceVal, hasKeyStr] <;> decide

end Items
